import Mathlib

set_option maxRecDepth 1000000
set_option maxHeartbeats 4000000
set_option linter.unusedVariables false
set_option linter.unnecessarySeqFocus false

/-!
Verification of the tic-tac-toe board model and minimax search of
`tic_tac_toe_agent.py` (classes `TicTacToeGame` and `MinimaxAI`).

The board is a 3×3 grid of one-character cell marks (`' '` empty, players
usually `'X'`/`'O'`); Python's `board` attribute (a list of three lists of
three one-character strings) is modelled as a structure with nine `Char`
fields, row-major.  Mutation is modelled by explicit state passing: the
search functions return the final board next to their value, so that the
"every trial move is undone" frame property is a provable statement.

Python's `-math.inf` / `math.inf` score sentinels are modelled by the
`Score` type (`negInf`, `num n`, `posInf`); `max`/`min`/comparisons on
scores mirror Python's built-ins on this mixed int/float domain.

A second, numeric implementation (`minimaxV` on base-4 digit-packed `Nat`
boards, suffix `N`/`V`) is defined purely so that large concrete searches
can be evaluated by kernel reduction at acceptable cost; it is proved
equivalent to the faithful embedding (`minimaxV_eq_minimaxF` and friends)
before any concrete fact is transported across it.
-/

/-- One cell of the board: a one-character Python string; `' '` is empty. -/
abbrev Cell := Char

/-- The 3×3 board, row-major: `cRC` is `board[R][C]` in the Python source. -/
structure Board where
  c00 : Cell
  c01 : Cell
  c02 : Cell
  c10 : Cell
  c11 : Cell
  c12 : Cell
  c20 : Cell
  c21 : Cell
  c22 : Cell
deriving DecidableEq

/-- `TicTacToeGame.__init__`: the all-blank board. -/
def emptyBoard : Board := ⟨' ', ' ', ' ', ' ', ' ', ' ', ' ', ' ', ' '⟩

/-- `self.board[r][c]` for in-range indices; out-of-range reads return `' '`
but are never reached by the embedded code (bounds are always checked or
indices come from `get_available_moves`). -/
def getCell (b : Board) (r c : Nat) : Cell :=
  match r, c with
  | 0, 0 => b.c00
  | 0, 1 => b.c01
  | 0, 2 => b.c02
  | 1, 0 => b.c10
  | 1, 1 => b.c11
  | 1, 2 => b.c12
  | 2, 0 => b.c20
  | 2, 1 => b.c21
  | 2, 2 => b.c22
  | _, _ => ' '

/-- `self.board[r][c] = m` for in-range indices (no-op out of range, which
the embedded code never does). -/
def setCell (b : Board) (r c : Nat) (m : Cell) : Board :=
  match r, c with
  | 0, 0 => ⟨m, b.c01, b.c02, b.c10, b.c11, b.c12, b.c20, b.c21, b.c22⟩
  | 0, 1 => ⟨b.c00, m, b.c02, b.c10, b.c11, b.c12, b.c20, b.c21, b.c22⟩
  | 0, 2 => ⟨b.c00, b.c01, m, b.c10, b.c11, b.c12, b.c20, b.c21, b.c22⟩
  | 1, 0 => ⟨b.c00, b.c01, b.c02, m, b.c11, b.c12, b.c20, b.c21, b.c22⟩
  | 1, 1 => ⟨b.c00, b.c01, b.c02, b.c10, m, b.c12, b.c20, b.c21, b.c22⟩
  | 1, 2 => ⟨b.c00, b.c01, b.c02, b.c10, b.c11, m, b.c20, b.c21, b.c22⟩
  | 2, 0 => ⟨b.c00, b.c01, b.c02, b.c10, b.c11, b.c12, m, b.c21, b.c22⟩
  | 2, 1 => ⟨b.c00, b.c01, b.c02, b.c10, b.c11, b.c12, b.c20, m, b.c22⟩
  | 2, 2 => ⟨b.c00, b.c01, b.c02, b.c10, b.c11, b.c12, b.c20, b.c21, m⟩
  | _, _ => b

/-- `TicTacToeGame.is_valid_move` (lines 34-37): both coordinates in `[0,3)`
and the cell empty.  Row and column are arbitrary integers, as in Python;
the bounds tests come first, so the cell read only happens in range. -/
def is_valid_move (b : Board) (row col : ℤ) : Bool :=
  decide (0 ≤ row) && decide (row < 3) && decide (0 ≤ col) && decide (col < 3) &&
    (getCell b row.toNat col.toNat == ' ')

/-- `TicTacToeGame.make_move` (lines 39-44): write the mark and return
`True` if the move is valid, else leave the board unchanged and return
`False`.  The returned pair is (return value, board after the call). -/
def make_move (b : Board) (row col : ℤ) (player : Cell) : Bool × Board :=
  if is_valid_move b row col then (true, setCell b row.toNat col.toNat player)
  else (false, b)

/-- `TicTacToeGame.check_winner` (lines 46-68): rows, then columns, then the
two diagonals; first fully-marked line wins. -/
def check_winner (b : Board) : Option Cell :=
  if b.c00 == b.c01 && b.c01 == b.c02 && b.c02 != ' ' then some b.c00
  else if b.c10 == b.c11 && b.c11 == b.c12 && b.c12 != ' ' then some b.c10
  else if b.c20 == b.c21 && b.c21 == b.c22 && b.c22 != ' ' then some b.c20
  else if b.c00 == b.c10 && b.c10 == b.c20 && b.c20 != ' ' then some b.c00
  else if b.c01 == b.c11 && b.c11 == b.c21 && b.c21 != ' ' then some b.c01
  else if b.c02 == b.c12 && b.c12 == b.c22 && b.c22 != ' ' then some b.c02
  else if b.c00 == b.c11 && b.c11 == b.c22 && b.c22 != ' ' then some b.c00
  else if b.c02 == b.c11 && b.c11 == b.c20 && b.c20 != ' ' then some b.c02
  else none

/-- `TicTacToeGame.is_board_full` (lines 70-76). -/
def is_board_full (b : Board) : Bool :=
  b.c00 != ' ' && b.c01 != ' ' && b.c02 != ' ' &&
  b.c10 != ' ' && b.c11 != ' ' && b.c12 != ' ' &&
  b.c20 != ' ' && b.c21 != ' ' && b.c22 != ' '

/-- `TicTacToeGame.is_game_over` (lines 78-85).  Python returns
`(True, winner)`, `(True, 'Draw')` or `(False, None)`; the draw marker
`'Draw'` (a string distinct from every one-character mark) is modelled as
`(true, none)`, winners as `(true, some mark)`. -/
def is_game_over (b : Board) : Bool × Option Cell :=
  match check_winner b with
  | some w => (true, some w)
  | none => if is_board_full b then (true, none) else (false, none)

/-- `TicTacToeGame.get_available_moves` (lines 87-94): the two nested
`for i/j in range(3)` loops appending the empty cells in row-major order. -/
def get_available_moves (b : Board) : List (Nat × Nat) :=
  (List.range 3).flatMap fun i =>
    (List.range 3).filterMap fun j =>
      if getCell b i j == ' ' then some (i, j) else none

/-- Python score values flowing through the search: either the integer
score of a terminal evaluation or one of the two float sentinels
`-math.inf` / `math.inf`. -/
inductive Score where
  | negInf : Score
  | num (n : ℤ) : Score
  | posInf : Score
deriving DecidableEq

/-- Ordering on scores, mirroring Python's comparison of ints and the two
infinities. -/
def Score.sle : Score → Score → Prop
  | .negInf, _ => True
  | _, .posInf => True
  | .num a, .num b => a ≤ b
  | .posInf, .negInf => False
  | .posInf, .num _ => False
  | .num _, .negInf => False

instance : LE Score := ⟨Score.sle⟩

instance Score.decLE : DecidableRel (α := Score) (· ≤ ·) := fun a b =>
  match a, b with
  | .negInf, x => isTrue (by cases x <;> exact trivial)
  | .num a, .posInf => isTrue trivial
  | .num a, .num b => inferInstanceAs (Decidable (a ≤ b))
  | .num a, .negInf => isFalse (fun h => h)
  | .posInf, .posInf => isTrue trivial
  | .posInf, .num b => isFalse (fun h => h)
  | .posInf, .negInf => isFalse (fun h => h)

instance : LinearOrder Score where
  le_refl a := by cases a <;> first | exact trivial | exact Int.le_refl _
  le_trans a b c := by
    cases a <;> cases b <;> cases c <;> intro h1 h2 <;>
      first
      | exact trivial
      | exact h1.elim
      | exact h2.elim
      | exact Int.le_trans h1 h2
  le_antisymm a b := by
    cases a <;> cases b <;> intro h1 h2 <;>
      first
      | rfl
      | exact h1.elim
      | exact h2.elim
      | exact congrArg Score.num (Int.le_antisymm h1 h2)
  le_total a b := by
    cases a <;> cases b <;>
      first
      | exact Or.inl trivial
      | exact Or.inr trivial
      | exact Int.le_total _ _
  decidableLE := Score.decLE

/-- `MinimaxAI.evaluate_board` (lines 106-117): `+10` when the winner is
the AI's mark, `-10` when it is the human's, `0` otherwise. -/
def evaluate_board (ai hu : Cell) (b : Board) : ℤ :=
  match check_winner b with
  | some w => if w == ai then 10 else if w == hu then -10 else 0
  | none => 0

/-- The terminal branch of `MinimaxAI.minimax` (lines 136-145): the raw
evaluation adjusted by depth, preferring faster wins and slower losses. -/
def terminalScore (ai hu : Cell) (b : Board) (depth : Nat) : Score :=
  let s := evaluate_board ai hu b
  if s > 0 then .num (s - depth)
  else if s < 0 then .num (s + depth)
  else .num 0

/-- The maximizing `for row, col in game.get_available_moves()` loop of
`MinimaxAI.minimax` (lines 149-167).  `next` is the recursive call at one
lower fuel; `mark` is the AI's mark; the board is threaded through the
iterations (apply, recurse, undo); `acc` is `max_eval` and `α` is the
running alpha.  The recursive result is bound by a pattern match (not by
projections) so that it is evaluated exactly once. -/
def abMaxLoop (next : Board → Score → Score → Score × Board) (mark : Cell) (β : Score) :
    List (Nat × Nat) → Board → Score → Score → Score × Board
  | [], b, _, acc => (acc, b)
  | (r, c) :: rest, b, α, acc =>
    match next (setCell b r c mark) α β with
    | (v, bc) =>
      let b2 := setCell bc r c ' '
      let acc' := max acc v
      let α' := max α v
      if β ≤ α' then (acc', b2) else abMaxLoop next mark β rest b2 α' acc'

/-- The minimizing loop of `MinimaxAI.minimax` (lines 170-188), dual to
`abMaxLoop`: `mark` is the human's mark, `acc` is `min_eval`, `β` the
running beta. -/
def abMinLoop (next : Board → Score → Score → Score × Board) (mark : Cell) (α : Score) :
    List (Nat × Nat) → Board → Score → Score → Score × Board
  | [], b, _, acc => (acc, b)
  | (r, c) :: rest, b, β, acc =>
    match next (setCell b r c mark) α β with
    | (v, bc) =>
      let b2 := setCell bc r c ' '
      let acc' := min acc v
      let β' := min β v
      if β' ≤ α then (acc', b2) else abMinLoop next mark α rest b2 β' acc'

/-- `MinimaxAI.minimax` (lines 119-188) with an explicit fuel bounding the
recursion depth.  Each recursive call consumes one fuel; since every
recursive call is on a board with one more mark, fuel `9` (used by the
`minimax` wrapper below) is never exhausted on a 3×3 board.  Returns
(score, board after the call). -/
def minimaxF (ai hu : Cell) : Nat → Board → Nat → Bool → Score → Score → Score × Board
  | 0, b, _, _, _, _ => (.num 0, b)
  | f + 1, b, depth, maximizing, α, β =>
    if (is_game_over b).1 then
      (terminalScore ai hu b depth, b)
    else if maximizing then
      abMaxLoop (fun b1 α' β' => minimaxF ai hu f b1 (depth + 1) false α' β')
        ai β (get_available_moves b) b α .negInf
    else
      abMinLoop (fun b1 α' β' => minimaxF ai hu f b1 (depth + 1) true α' β')
        hu α (get_available_moves b) b β .posInf

/-- `MinimaxAI.minimax` as called from the outside (with enough fuel for
any 3×3 board). -/
def minimax (ai hu : Cell) (b : Board) (depth : Nat) (maximizing : Bool)
    (α β : Score) : Score × Board :=
  minimaxF ai hu 9 b depth maximizing α β

/-- The candidate loop of `MinimaxAI.get_best_move` (lines 202-215): apply
the candidate for the AI, call `minimax(game, 0, False)` with the default
alpha/beta `-inf`/`inf`, undo, and replace the incumbent only on a strictly
greater score.  `bs`/`bm` are `best_score`/`best_move`. -/
def bmLoop (ai hu : Cell) :
    List (Nat × Nat) → Board → Score → Option (Nat × Nat) → Option (Nat × Nat) × Board
  | [], b, _, bm => (bm, b)
  | (r, c) :: rest, b, bs, bm =>
    match minimax ai hu (setCell b r c ai) 0 false .negInf .posInf with
    | (v, bc) =>
      let b2 := setCell bc r c ' '
      if bs < v then bmLoop ai hu rest b2 v (some (r, c))
      else bmLoop ai hu rest b2 bs bm

/-- `MinimaxAI.get_best_move` (lines 190-217): returns (best move or
`None`, board after the call). -/
def get_best_move (ai hu : Cell) (b : Board) : Option (Nat × Nat) × Board :=
  bmLoop ai hu (get_available_moves b) b .negInf none

/-- The mark of the opposing agent in a two-agent match. -/
def otherMark (t : Cell) : Cell := if t == 'X' then 'O' else 'X'

/-- Modelled from the spec: "Playing the AI against itself … from an empty
board": two `MinimaxAI` agents (one maximizing for `turn`, one for
`otherMark turn`) alternate, each playing `get_best_move` and applying it
with `make_move`, until `is_game_over` reports a terminal board (`fuel`
bounds the number of moves; 10 suffices from the empty board). -/
def selfPlay : Nat → Board → Cell → Board
  | 0, b, _ => b
  | f + 1, b, turn =>
    if (is_game_over b).1 then b
    else
      match (get_best_move turn (otherMark turn) b).1 with
      | none => b
      | some (r, c) => selfPlay f (make_move b (r : ℤ) (c : ℤ) turn).2 (otherMark turn)

/-- Modelled from the spec: "the same search performed with plain minimax
and no cutoffs" — `minimaxF` with the alpha-beta bookkeeping and the
`beta <= alpha` break removed; pure in the board. -/
def plainF (ai hu : Cell) : Nat → Board → Nat → Bool → Score
  | 0, _, _, _ => .num 0
  | f + 1, b, depth, maximizing =>
    if (is_game_over b).1 then terminalScore ai hu b depth
    else if maximizing then
      ((get_available_moves b).map
        (fun rc => plainF ai hu f (setCell b rc.1 rc.2 ai) (depth + 1) false)).foldl max .negInf
    else
      ((get_available_moves b).map
        (fun rc => plainF ai hu f (setCell b rc.1 rc.2 hu) (depth + 1) true)).foldl min .posInf

/-- The candidate loop of `get_best_move` re-done with `plainF` scores (no
cutoffs); the board is pure here, so it is not threaded. -/
def plainBmLoop (ai hu : Cell) (b : Board) :
    List (Nat × Nat) → Score → Option (Nat × Nat) → Option (Nat × Nat)
  | [], _, bm => bm
  | (r, c) :: rest, bs, bm =>
    let v := plainF ai hu 9 (setCell b r c ai) 0 false
    if bs < v then plainBmLoop ai hu b rest v (some (r, c))
    else plainBmLoop ai hu b rest bs bm

/-- `get_best_move` with every score computed by plain minimax (no
alpha-beta cutoffs anywhere). -/
def get_best_move_plain (ai hu : Cell) (b : Board) : Option (Nat × Nat) :=
  plainBmLoop ai hu b (get_available_moves b) .negInf none

/-- The score `get_best_move` computes for one root candidate: apply the
candidate for the AI and call `minimax` with `depth = 0`,
`maximizing = False` and the default bounds. -/
def rootScore (ai hu : Cell) (b : Board) (m : Nat × Nat) : Score :=
  (minimax ai hu (setCell b m.1 m.2 ai) 0 false .negInf .posInf).1

/-- The greatest root-candidate score on `b`. -/
def maxRootScore (ai hu : Cell) (b : Board) : Score :=
  ((get_available_moves b).map (rootScore ai hu b)).foldl max .negInf

/-- The first available move (row-major) whose root score attains
`maxRootScore` — the "first move wins ties" selection rule. -/
def firstMaxMove (ai hu : Cell) (b : Board) : Option (Nat × Nat) :=
  (get_available_moves b).find? (fun m => rootScore ai hu b m == maxRootScore ai hu b)

/-- `p` occupies some complete row, column or diagonal (the spec's "has a
winning line", independent of the order `check_winner` scans lines in). -/
def hasWinningLine (b : Board) (p : Cell) : Bool :=
  (b.c00 == p && b.c01 == p && b.c02 == p) ||
  (b.c10 == p && b.c11 == p && b.c12 == p) ||
  (b.c20 == p && b.c21 == p && b.c22 == p) ||
  (b.c00 == p && b.c10 == p && b.c20 == p) ||
  (b.c01 == p && b.c11 == p && b.c21 == p) ||
  (b.c02 == p && b.c12 == p && b.c22 == p) ||
  (b.c00 == p && b.c11 == p && b.c22 == p) ||
  (b.c02 == p && b.c11 == p && b.c20 == p)

/-- Every cell of `b` is blank or one of the two players' marks (the
spec's board invariant "each cell is Empty or Mark(P), P ∈ {A, B}"). -/
def boardUses (ai hu : Cell) (b : Board) : Bool :=
  (b.c00 == ' ' || b.c00 == ai || b.c00 == hu) &&
  (b.c01 == ' ' || b.c01 == ai || b.c01 == hu) &&
  (b.c02 == ' ' || b.c02 == ai || b.c02 == hu) &&
  (b.c10 == ' ' || b.c10 == ai || b.c10 == hu) &&
  (b.c11 == ' ' || b.c11 == ai || b.c11 == hu) &&
  (b.c12 == ' ' || b.c12 == ai || b.c12 == hu) &&
  (b.c20 == ' ' || b.c20 == ai || b.c20 == hu) &&
  (b.c21 == ' ' || b.c21 == ai || b.c21 == hu) &&
  (b.c22 == ' ' || b.c22 == ai || b.c22 == hu)

/-- The nine cell coordinates in row-major order. -/
def rowMajorCells : List (Nat × Nat) :=
  [(0, 0), (0, 1), (0, 2), (1, 0), (1, 1), (1, 2), (2, 0), (2, 1), (2, 2)]

/-- How many cells of `b` are occupied (non-blank). -/
def occupiedCount (b : Board) : Nat :=
  (rowMajorCells.filter (fun m => !(getCell b m.1 m.2 == ' '))).length

/-- Boolean `≤` on `Score` by direct pattern match (used by the fast
numeric mirror of the search; agrees with `≤`, see `Score.ble_eq_decide`). -/
def Score.ble : Score → Score → Bool
  | .negInf, _ => true
  | _, .posInf => true
  | .num a, .num b => a ≤ b
  | .posInf, .negInf => false
  | .posInf, .num _ => false
  | .num _, .negInf => false

/-- Boolean `<` on `Score` by direct pattern match. -/
def Score.blt : Score → Score → Bool
  | _, .negInf => false
  | .negInf, _ => true
  | .posInf, _ => false
  | _, .posInf => true
  | .num a, .num b => a < b

/-- `max` on `Score` by direct pattern match (agrees with `max`). -/
def Score.smax : Score → Score → Score
  | .negInf, y => y
  | x, .negInf => x
  | .posInf, _ => .posInf
  | _, .posInf => .posInf
  | .num a, .num b => if a ≤ b then .num b else .num a

/-- `min` on `Score` by direct pattern match (agrees with `min`). -/
def Score.smin : Score → Score → Score
  | .posInf, y => y
  | x, .posInf => x
  | .negInf, _ => .negInf
  | _, .negInf => .negInf
  | .num a, .num b => if a ≤ b then .num a else .num b

/-- Digit `i` (0–8, row-major cell `3*r + c`) of a base-4 packed board. -/
def getd (b i : Nat) : Nat := b / Nat.pow 4 i % 4

/-- Base-4 packed board with digit `i` set to `m`. -/
def setd (b i m : Nat) : Nat :=
  b / Nat.pow 4 (i + 1) * (4 * Nat.pow 4 i) + m * Nat.pow 4 i + b % Nat.pow 4 i

/-- `check_winner` on packed boards: digit codes of the first complete
line (1 = maximizing side, 2 = minimizing side), 0 when there is none. -/
def winnerN (b : Nat) : Nat :=
  if getd b 0 == getd b 1 && getd b 1 == getd b 2 && getd b 2 != 0 then getd b 0
  else if getd b 3 == getd b 4 && getd b 4 == getd b 5 && getd b 5 != 0 then getd b 3
  else if getd b 6 == getd b 7 && getd b 7 == getd b 8 && getd b 8 != 0 then getd b 6
  else if getd b 0 == getd b 3 && getd b 3 == getd b 6 && getd b 6 != 0 then getd b 0
  else if getd b 1 == getd b 4 && getd b 4 == getd b 7 && getd b 7 != 0 then getd b 1
  else if getd b 2 == getd b 5 && getd b 5 == getd b 8 && getd b 8 != 0 then getd b 2
  else if getd b 0 == getd b 4 && getd b 4 == getd b 8 && getd b 8 != 0 then getd b 0
  else if getd b 2 == getd b 4 && getd b 4 == getd b 6 && getd b 6 != 0 then getd b 2
  else 0

/-- `is_board_full` on packed boards. -/
def fullN (b : Nat) : Bool :=
  getd b 0 != 0 && getd b 1 != 0 && getd b 2 != 0 &&
  getd b 3 != 0 && getd b 4 != 0 && getd b 5 != 0 &&
  getd b 6 != 0 && getd b 7 != 0 && getd b 8 != 0

/-- `get_available_moves` on packed boards (row-major, as coordinates). -/
def availN (b : Nat) : List (Nat × Nat) :=
  (if getd b 0 == 0 then [((0 : Nat), (0 : Nat))] else []) ++
  (if getd b 1 == 0 then [(0, 1)] else []) ++
  (if getd b 2 == 0 then [(0, 2)] else []) ++
  (if getd b 3 == 0 then [(1, 0)] else []) ++
  (if getd b 4 == 0 then [(1, 1)] else []) ++
  (if getd b 5 == 0 then [(1, 2)] else []) ++
  (if getd b 6 == 0 then [(2, 0)] else []) ++
  (if getd b 7 == 0 then [(2, 1)] else []) ++
  (if getd b 8 == 0 then [(2, 2)] else [])

/-- Value-only maximizing loop on packed boards (mirror of `abMaxLoop`;
the candidate's score is forced to constructor form by the match so that
kernel evaluation of large searches stays linear). -/
def vMaxLoop (next : Nat → Score → Score → Score) (β : Score) (b : Nat) :
    List (Nat × Nat) → Score → Score → Score :=
  List.rec (motive := fun _ => Score → Score → Score)
    (fun _ acc => acc)
    (fun rc _ ih α acc =>
      match next (setd b (3 * rc.1 + rc.2) 1) α β with
      | Score.negInf =>
        let acc' := Score.smax acc Score.negInf
        let α' := Score.smax α Score.negInf
        if Score.ble β α' then acc' else ih α' acc'
      | Score.num n =>
        let acc' := Score.smax acc (Score.num n)
        let α' := Score.smax α (Score.num n)
        if Score.ble β α' then acc' else ih α' acc'
      | Score.posInf =>
        let acc' := Score.smax acc Score.posInf
        let α' := Score.smax α Score.posInf
        if Score.ble β α' then acc' else ih α' acc')

/-- Value-only minimizing loop on packed boards (mirror of `abMinLoop`). -/
def vMinLoop (next : Nat → Score → Score → Score) (α : Score) (b : Nat) :
    List (Nat × Nat) → Score → Score → Score :=
  List.rec (motive := fun _ => Score → Score → Score)
    (fun _ acc => acc)
    (fun rc _ ih β acc =>
      match next (setd b (3 * rc.1 + rc.2) 2) α β with
      | Score.negInf =>
        let acc' := Score.smin acc Score.negInf
        let β' := Score.smin β Score.negInf
        if Score.ble β' α then acc' else ih β' acc'
      | Score.num n =>
        let acc' := Score.smin acc (Score.num n)
        let β' := Score.smin β (Score.num n)
        if Score.ble β' α then acc' else ih β' acc'
      | Score.posInf =>
        let acc' := Score.smin acc Score.posInf
        let β' := Score.smin β Score.posInf
        if Score.ble β' α then acc' else ih β' acc')

/-- Value-only `minimaxF` on packed boards (digit 1 = maximizing side's
mark, 2 = minimizing side's); written with `Nat.rec` so kernel reduction
unfolds one fuel step at a time. -/
def minimaxV (fuel : Nat) : Nat → Nat → Bool → Score → Score → Score :=
  Nat.rec (motive := fun _ => Nat → Nat → Bool → Score → Score → Score)
    (fun _ _ _ _ _ => .num 0)
    (fun _ ih b depth maximizing α β =>
      match winnerN b with
      | 0 =>
        if fullN b then .num 0
        else if maximizing then
          vMaxLoop (fun b1 α' β' => ih b1 (depth + 1) false α' β') β b (availN b) α .negInf
        else
          vMinLoop (fun b1 α' β' => ih b1 (depth + 1) true α' β') α b (availN b) β .posInf
      | w => if w == 1 then .num (10 - (depth : ℤ)) else .num (-10 + (depth : ℤ)))
    fuel

/-- Candidate loop of `get_best_move` on packed boards, with the running
best score also used as the alpha bound of each candidate's search (legal
root-level pruning: proved to select the same move as the fresh-bounds
loop the Python code runs). -/
def bmLoopSharedV (b : Nat) :
    List (Nat × Nat) → Score → Option (Nat × Nat) → Option (Nat × Nat) :=
  List.rec (motive := fun _ => Score → Option (Nat × Nat) → Option (Nat × Nat))
    (fun _ bm => bm)
    (fun rc _ ih bs bm =>
      match minimaxV 9 (setd b (3 * rc.1 + rc.2) 1) 0 false bs .posInf with
      | Score.negInf =>
        if Score.blt bs Score.negInf then ih Score.negInf (some rc) else ih bs bm
      | Score.num n =>
        if Score.blt bs (Score.num n) then ih (Score.num n) (some rc) else ih bs bm
      | Score.posInf =>
        if Score.blt bs Score.posInf then ih Score.posInf (some rc) else ih bs bm)

/-- `get_best_move` on packed boards with root-level alpha sharing. -/
def bestMoveSharedV (b : Nat) : Option (Nat × Nat) :=
  bmLoopSharedV b (availN b) .negInf none

/-- The digit code a cell contributes to the packed encoding: 1 for the
maximizing side's mark, 2 for the minimizing side's, 0 for anything else. -/
def cellCode (ai hu c : Cell) : Nat := if c == ai then 1 else if c == hu then 2 else 0

/-- Base-4 packed encoding of a board, row-major, relative to the two
players' marks. -/
def encB (ai hu : Cell) (b : Board) : Nat :=
  cellCode ai hu b.c00 + 4 * (cellCode ai hu b.c01 + 4 * (cellCode ai hu b.c02 +
    4 * (cellCode ai hu b.c10 + 4 * (cellCode ai hu b.c11 + 4 * (cellCode ai hu b.c12 +
    4 * (cellCode ai hu b.c20 + 4 * (cellCode ai hu b.c21 + 4 * cellCode ai hu b.c22)))))))

theorem Score.negInf_le (x : Score) : Score.negInf ≤ x := by cases x <;> exact trivial

theorem Score.le_posInf (x : Score) : x ≤ Score.posInf := by cases x <;> exact trivial

theorem Score.le_negInf_iff (x : Score) : x ≤ Score.negInf ↔ x = Score.negInf := by
  cases x <;> simp [(· ≤ ·), Score.sle]

theorem Score.posInf_le_iff (x : Score) : Score.posInf ≤ x ↔ x = Score.posInf := by
  cases x <;> simp [(· ≤ ·), Score.sle]

theorem Score.smax_eq_max (a b : Score) : Score.smax a b = max a b := by
  cases a <;> cases b <;>
    simp [Score.smax, max_def, (· ≤ ·), Score.sle]

theorem Score.smin_eq_min (a b : Score) : Score.smin a b = min a b := by
  cases a <;> cases b <;>
    simp [Score.smin, min_def, (· ≤ ·), Score.sle]

theorem Score.ble_eq_decide (a b : Score) : Score.ble a b = decide (a ≤ b) := by
  cases a <;> cases b <;> simp [Score.ble, (· ≤ ·), Score.sle]

theorem Score.blt_eq_decide (a b : Score) : Score.blt a b = decide (a < b) := by
  cases a <;> cases b <;>
    simp [Score.blt, lt_iff_le_not_le, (· ≤ ·), Score.sle, decide_eq_true_eq]

theorem getCell_setCell_same (b : Board) (r c : Nat) (m : Cell)
    (hr : r < 3) (hc : c < 3) : getCell (setCell b r c m) r c = m := by
  interval_cases r <;> interval_cases c <;> rfl

theorem setCell_setCell_cancel (b : Board) (r c : Nat) (m : Cell)
    (hr : r < 3) (hc : c < 3) (h : getCell b r c = ' ') :
    setCell (setCell b r c m) r c ' ' = b := by
  interval_cases r <;> interval_cases c <;>
    (rcases b with ⟨x0, x1, x2, x3, x4, x5, x6, x7, x8⟩;
     simp only [getCell] at h; simp [setCell, h])

theorem avail_eq_filter (b : Board) :
    get_available_moves b = rowMajorCells.filter (fun m => getCell b m.1 m.2 == ' ') := by
  have range3 : List.range 3 = [0, 1, 2] := rfl
  have row : ∀ i : Nat,
      List.filterMap (fun j => if getCell b i j == ' ' then some (i, j) else none)
          ([0, 1, 2] : List Nat)
        = [(i, 0), (i, 1), (i, 2)].filter (fun m => getCell b m.1 m.2 == ' ') := by
    intro i
    by_cases h0 : getCell b i 0 == ' ' <;>
      by_cases h1 : getCell b i 1 == ' ' <;>
      by_cases h2 : getCell b i 2 == ' ' <;>
      simp [List.filterMap, List.filter, h0, h1, h2]
  rw [get_available_moves]
  simp only [range3, List.flatMap_cons, List.flatMap_nil, List.append_nil, row]
  have hsplit : rowMajorCells
      = [((0 : Nat), (0 : Nat)), (0, 1), (0, 2)]
        ++ ([(1, 0), (1, 1), (1, 2)] ++ [(2, 0), (2, 1), (2, 2)]) := rfl
  rw [hsplit, List.filter_append, List.filter_append]

theorem mem_rowMajorCells (m : Nat × Nat) :
    m ∈ rowMajorCells ↔ m.1 < 3 ∧ m.2 < 3 := by
  rcases m with ⟨r, c⟩
  simp [rowMajorCells, Prod.ext_iff]
  omega

theorem mem_avail (b : Board) (m : Nat × Nat) :
    m ∈ get_available_moves b ↔ m.1 < 3 ∧ m.2 < 3 ∧ getCell b m.1 m.2 = ' ' := by
  rw [avail_eq_filter, List.mem_filter, mem_rowMajorCells]
  simp [and_assoc]

theorem full_iff_avail_nil (b : Board) :
    is_board_full b = true ↔ get_available_moves b = [] := by
  rw [avail_eq_filter, List.filter_eq_nil_iff]
  simp [is_board_full, rowMajorCells, getCell, and_assoc]

theorem game_over_false_avail_ne_nil (b : Board)
    (h : (is_game_over b).1 = false) : get_available_moves b ≠ [] := by
  intro hnil
  have hfull : is_board_full b = true := (full_iff_avail_nil b).mpr hnil
  rw [is_game_over] at h
  rcases hw : check_winner b with _ | w <;> rw [hw] at h <;> simp [hfull] at h

theorem abMaxLoop_board (next : Board → Score → Score → Score × Board) (mark : Cell)
    (hnext : ∀ b' α' β', (next b' α' β').2 = b') (β : Score) :
    ∀ (moves : List (Nat × Nat)) (b : Board) (α acc : Score),
      (∀ m ∈ moves, m.1 < 3 ∧ m.2 < 3 ∧ getCell b m.1 m.2 = ' ') →
      (abMaxLoop next mark β moves b α acc).2 = b := by
  intro moves
  induction moves with
  | nil => intro b α acc _; rfl
  | cons m rest ih =>
    rcases m with ⟨r, c⟩
    intro b α acc hm
    obtain ⟨hr, hc, hcell⟩ := hm (r, c) (List.mem_cons_self _ _)
    have hrest : ∀ m ∈ rest, m.1 < 3 ∧ m.2 < 3 ∧ getCell b m.1 m.2 = ' ' :=
      fun m hmem => hm m (List.mem_cons_of_mem _ hmem)
    rw [abMaxLoop]
    rcases hres : next (setCell b r c mark) α β with ⟨v, bc⟩
    have hbc : bc = setCell b r c mark := by
      have := hnext (setCell b r c mark) α β
      rw [hres] at this; exact this
    have hundo : setCell bc r c ' ' = b := by
      rw [hbc]; exact setCell_setCell_cancel b r c mark hr hc hcell
    simp only [hundo]
    split
    · rfl
    · exact ih b _ _ hrest

theorem abMinLoop_board (next : Board → Score → Score → Score × Board) (mark : Cell)
    (hnext : ∀ b' α' β', (next b' α' β').2 = b') (α : Score) :
    ∀ (moves : List (Nat × Nat)) (b : Board) (β acc : Score),
      (∀ m ∈ moves, m.1 < 3 ∧ m.2 < 3 ∧ getCell b m.1 m.2 = ' ') →
      (abMinLoop next mark α moves b β acc).2 = b := by
  intro moves
  induction moves with
  | nil => intro b β acc _; rfl
  | cons m rest ih =>
    rcases m with ⟨r, c⟩
    intro b β acc hm
    obtain ⟨hr, hc, hcell⟩ := hm (r, c) (List.mem_cons_self _ _)
    have hrest : ∀ m ∈ rest, m.1 < 3 ∧ m.2 < 3 ∧ getCell b m.1 m.2 = ' ' :=
      fun m hmem => hm m (List.mem_cons_of_mem _ hmem)
    rw [abMinLoop]
    rcases hres : next (setCell b r c mark) α β with ⟨v, bc⟩
    have hbc : bc = setCell b r c mark := by
      have := hnext (setCell b r c mark) α β
      rw [hres] at this; exact this
    have hundo : setCell bc r c ' ' = b := by
      rw [hbc]; exact setCell_setCell_cancel b r c mark hr hc hcell
    simp only [hundo]
    split
    · rfl
    · exact ih b _ _ hrest

theorem minimaxF_board (ai hu : Cell) :
    ∀ (fuel : Nat) (b : Board) (depth : Nat) (maximizing : Bool) (α β : Score),
      (minimaxF ai hu fuel b depth maximizing α β).2 = b := by
  intro fuel
  induction fuel with
  | zero => intro b _ _ _ _; rfl
  | succ f ih =>
    intro b depth maximizing α β
    rw [minimaxF]
    split
    · rfl
    · split
      · exact abMaxLoop_board _ ai (fun b' α' β' => ih b' (depth + 1) false α' β') β
          (get_available_moves b) b α .negInf
          (fun m hm => (mem_avail b m).mp hm)
      · exact abMinLoop_board _ hu (fun b' α' β' => ih b' (depth + 1) true α' β') α
          (get_available_moves b) b β .posInf
          (fun m hm => (mem_avail b m).mp hm)

theorem minimax_board (ai hu : Cell) (b : Board) (depth : Nat) (maximizing : Bool)
    (α β : Score) : (minimax ai hu b depth maximizing α β).2 = b :=
  minimaxF_board ai hu 9 b depth maximizing α β

theorem bmLoop_board (ai hu : Cell) :
    ∀ (moves : List (Nat × Nat)) (b : Board) (bs : Score) (bm : Option (Nat × Nat)),
      (∀ m ∈ moves, m.1 < 3 ∧ m.2 < 3 ∧ getCell b m.1 m.2 = ' ') →
      (bmLoop ai hu moves b bs bm).2 = b := by
  intro moves
  induction moves with
  | nil => intro b bs bm _; rfl
  | cons m rest ih =>
    rcases m with ⟨r, c⟩
    intro b bs bm hm
    obtain ⟨hr, hc, hcell⟩ := hm (r, c) (List.mem_cons_self _ _)
    have hrest : ∀ m ∈ rest, m.1 < 3 ∧ m.2 < 3 ∧ getCell b m.1 m.2 = ' ' :=
      fun m hmem => hm m (List.mem_cons_of_mem _ hmem)
    rw [bmLoop]
    rcases hres : minimax ai hu (setCell b r c ai) 0 false .negInf .posInf with ⟨v, bc⟩
    have hbc : bc = setCell b r c ai := by
      have := minimax_board ai hu (setCell b r c ai) 0 false .negInf .posInf
      rw [hres] at this; exact this
    have hundo : setCell bc r c ' ' = b := by
      rw [hbc]; exact setCell_setCell_cancel b r c ai hr hc hcell
    simp only [hundo]
    split <;> exact ih b _ _ hrest

theorem get_best_move_board (ai hu : Cell) (b : Board) :
    (get_best_move ai hu b).2 = b :=
  bmLoop_board ai hu (get_available_moves b) b .negInf none
    (fun m hm => (mem_avail b m).mp hm)

theorem is_valid_move_iff (b : Board) (row col : ℤ) :
    is_valid_move b row col = true ↔
      0 ≤ row ∧ row ≤ 2 ∧ 0 ≤ col ∧ col ≤ 2 ∧ getCell b row.toNat col.toNat = ' ' := by
  simp only [is_valid_move, Bool.and_eq_true, decide_eq_true_eq, beq_iff_eq]
  constructor
  · rintro ⟨⟨⟨⟨h1, h2⟩, h3⟩, h4⟩, h5⟩
    exact ⟨h1, by omega, h3, by omega, h5⟩
  · rintro ⟨h1, h2, h3, h4, h5⟩
    exact ⟨⟨⟨⟨h1, by omega⟩, h3⟩, by omega⟩, h5⟩

/-- C1: once `minimax` or `get_best_move` returns, the board is structurally
equal to its pre-call state — every trial move applied during the search is
undone before return, on every path, including the early `break` taken on an
alpha-beta cutoff (the statement quantifies over all alpha/beta bounds and
both players' marks). -/
theorem C1_search_restores_board (ai hu : Cell) (b : Board) (depth : Nat)
    (maximizing : Bool) (α β : Score) :
    (minimax ai hu b depth maximizing α β).2 = b ∧ (get_best_move ai hu b).2 = b :=
  ⟨minimax_board ai hu b depth maximizing α β, get_best_move_board ai hu b⟩

/-- C8: `is_valid_move` returns `true` exactly when both integer
coordinates lie in `[0, 2]` and the addressed cell is blank; in particular
it returns `false` on every out-of-range coordinate (including negative
ones) for every board, the bounds tests short-circuiting before the board
is indexed — the function is total, so no exception path exists. -/
theorem C8_is_valid_move_iff (b : Board) (row col : ℤ) :
    is_valid_move b row col = true ↔
      0 ≤ row ∧ row ≤ 2 ∧ 0 ≤ col ∧ col ≤ 2 ∧ getCell b row.toNat col.toNat = ' ' :=
  is_valid_move_iff b row col

/-- C7: on a valid move `make_move` returns `True` having written exactly
that player's mark at (row, col); on an invalid move it returns `False`
with the board untouched.  Both branches are total functions of the
inputs — there is no exception path. -/
theorem C7_make_move_spec (b : Board) (row col : ℤ) (player : Cell) :
    (is_valid_move b row col = true →
      (make_move b row col player).1 = true ∧
      (make_move b row col player).2 = setCell b row.toNat col.toNat player ∧
      getCell (make_move b row col player).2 row.toNat col.toNat = player) ∧
    (is_valid_move b row col = false →
      make_move b row col player = (false, b)) := by
  constructor
  · intro h
    obtain ⟨h0r, h2r, h0c, h2c, hcell⟩ := (is_valid_move_iff b row col).mp h
    have hr : row.toNat < 3 := by omega
    have hc : col.toNat < 3 := by omega
    rw [make_move, if_pos h]
    exact ⟨rfl, rfl, getCell_setCell_same b _ _ player hr hc⟩
  · intro h
    rw [make_move, if_neg (by simp [h])]

theorem C7_make_move_spec_witness :
    (make_move emptyBoard 0 0 'X').1 = true ∧
    getCell (make_move emptyBoard 0 0 'X').2 0 0 = 'X' ∧
    make_move emptyBoard 3 3 'O' = (false, emptyBoard) := by
  have h1 := (C7_make_move_spec emptyBoard 0 0 'X').1 (by decide)
  have h2 := (C7_make_move_spec emptyBoard 3 3 'O').2 (by decide)
  exact ⟨h1.1, h1.2.2, h2⟩

/-- C9: `get_available_moves` returns exactly the blank cells in row-major
order, and its length is 9 minus the number of occupied cells. -/
theorem C9_available_moves_row_major (b : Board) :
    get_available_moves b = rowMajorCells.filter (fun m => getCell b m.1 m.2 == ' ') ∧
    (get_available_moves b).length = 9 - occupiedCount b := by
  refine ⟨avail_eq_filter b, ?_⟩
  rw [avail_eq_filter, occupiedCount]
  have hsplit : ∀ l : List (Nat × Nat),
      (l.filter (fun m => getCell b m.1 m.2 == ' ')).length +
      (l.filter (fun m => !(getCell b m.1 m.2 == ' '))).length = l.length := by
    intro l
    induction l with
    | nil => rfl
    | cons a l ih =>
      by_cases h : getCell b a.1 a.2 == ' ' <;> simp [List.filter_cons, h] <;> omega
  have h9 : rowMajorCells.length = 9 := rfl
  have := hsplit rowMajorCells
  omega

/-- C10: on a board with no blank cell, `get_best_move` returns `None`
(the candidate loop never runs, so `best_move` keeps its initial value)
and leaves the board unchanged; it is a total function, so no exception
is raised. -/
theorem C10_full_board_best_move_none (ai hu : Cell) (b : Board)
    (h : is_board_full b = true) : get_best_move ai hu b = (none, b) := by
  rw [get_best_move, (full_iff_avail_nil b).mp h]
  rfl

theorem C10_full_board_best_move_none_witness :
    is_board_full ⟨'X', 'O', 'X', 'O', 'X', 'O', 'O', 'X', 'O'⟩ = true ∧
    get_best_move 'O' 'X' ⟨'X', 'O', 'X', 'O', 'X', 'O', 'O', 'X', 'O'⟩
      = (none, ⟨'X', 'O', 'X', 'O', 'X', 'O', 'O', 'X', 'O'⟩) :=
  ⟨by decide, C10_full_board_best_move_none 'O' 'X' _ (by decide)⟩

theorem check_winner_some (b : Board) (m : Cell) (h : check_winner b = some m) :
    m ≠ ' ' ∧ hasWinningLine b m = true := by
  rw [check_winner] at h
  split_ifs at h with h1 h2 h3 h4 h5 h6 h7 h8 <;>
    first
    | exact Option.noConfusion h
    | (injection h with hm; subst hm;
       simp_all [hasWinningLine, Bool.and_eq_true, Bool.or_eq_true, beq_iff_eq, bne_iff_ne])

theorem check_winner_none (b : Board) (h : check_winner b = none) (p : Cell)
    (hp : p ≠ ' ') : hasWinningLine b p = false := by
  rw [check_winner] at h
  split_ifs at h with h1 h2 h3 h4 h5 h6 h7 h8
  rw [Bool.eq_false_iff]
  intro hw
  simp only [hasWinningLine, Bool.or_eq_true, Bool.and_eq_true, beq_iff_eq] at hw
  simp only [Bool.and_eq_true, beq_iff_eq, bne_iff_ne, not_and, ne_eq] at h1 h2 h3 h4 h5 h6 h7 h8
  rcases hw with ⟨e1, e2, e3⟩ | ⟨e1, e2, e3⟩ | ⟨e1, e2, e3⟩ | ⟨e1, e2, e3⟩ |
    ⟨e1, e2, e3⟩ | ⟨e1, e2, e3⟩ | ⟨e1, e2, e3⟩ | ⟨e1, e2, e3⟩ <;>
    simp_all

theorem check_winner_mem (ai hu : Cell) (b : Board) (hok : boardUses ai hu b = true)
    (m : Cell) (h : check_winner b = some m) : m = ai ∨ m = hu := by
  simp only [boardUses, Bool.and_eq_true, Bool.or_eq_true, beq_iff_eq] at hok
  rw [check_winner] at h
  split_ifs at h with h1 h2 h3 h4 h5 h6 h7 h8 <;>
    first
    | exact Option.noConfusion h
    | (injection h with hm; subst hm;
       simp_all [Bool.and_eq_true, beq_iff_eq, bne_iff_ne])

/-- C4 counterexample: on the malformed terminal board `XXX / OOO / ...`
both sides have a winning line; with the AI (maximizing side) `'O'`, the
claim demands `10 − depth = 10` at depth 0, but `check_winner` scans rows
first, finds the `'X'` row, and `minimax` returns `−10`. -/
theorem C4_counterexample_double_line :
    (is_game_over ⟨'X', 'X', 'X', 'O', 'O', 'O', ' ', ' ', ' '⟩).1 = true ∧
    hasWinningLine ⟨'X', 'X', 'X', 'O', 'O', 'O', ' ', ' ', ' '⟩ 'O' = true ∧
    (minimax 'O' 'X' ⟨'X', 'X', 'X', 'O', 'O', 'O', ' ', ' ', ' '⟩ 0 true
        Score.negInf Score.posInf).1 = Score.num (-10) ∧
    (minimax 'O' 'X' ⟨'X', 'X', 'X', 'O', 'O', 'O', ' ', ' ', ' '⟩ 0 true
        Score.negInf Score.posInf).1 ≠ Score.num 10 := by
  refine ⟨rfl, rfl, rfl, ?_⟩
  decide

/-- C4 (amended): for a terminal board over the two players' marks on
which at most one side has a winning line, `minimax` returns `10 − depth`
when the maximizing side has a winning line, `−10 + depth` when the
minimizing side has one, and `0` otherwise, at every depth and for any
alpha/beta bounds. -/
theorem C4_terminal_minimax_value (ai hu : Cell) (b : Board) (depth : Nat)
    (maximizing : Bool) (α β : Score)
    (hai : ai ≠ ' ') (hhu : hu ≠ ' ') (hne : ai ≠ hu)
    (hok : boardUses ai hu b = true)
    (hterm : (is_game_over b).1 = true)
    (hnotboth : ¬(hasWinningLine b ai = true ∧ hasWinningLine b hu = true)) :
    (minimax ai hu b depth maximizing α β).1 =
      if hasWinningLine b ai then Score.num (10 - (depth : ℤ))
      else if hasWinningLine b hu then Score.num (-10 + (depth : ℤ))
      else Score.num 0 := by
  have h9 : (9 : Nat) = 8 + 1 := rfl
  rw [minimax, h9, minimaxF, if_pos hterm]
  rcases hw : check_winner b with _ | m
  · have hai' : hasWinningLine b ai = false := check_winner_none b hw ai hai
    have hhu' : hasWinningLine b hu = false := check_winner_none b hw hu hhu
    simp [terminalScore, evaluate_board, hw, hai', hhu']
  · obtain ⟨hmne, hline⟩ := check_winner_some b m hw
    rcases check_winner_mem ai hu b hok m hw with rfl | hm2
    · have hhu' : hasWinningLine b hu = false := by
        cases hhl : hasWinningLine b hu
        · rfl
        · exact absurd ⟨hline, hhl⟩ hnotboth
      simp [terminalScore, evaluate_board, hw, hline, hhu']
    · subst hm2
      have hai' : hasWinningLine b ai = false := by
        cases hhl : hasWinningLine b ai
        · rfl
        · exact absurd ⟨hhl, hline⟩ hnotboth
      have hne2 : (m == ai) = false := by
        simp only [beq_eq_false_iff_ne, ne_eq]
        exact fun hh => hne (hh ▸ rfl)
      simp [terminalScore, evaluate_board, hw, hline, hai', hne2]

theorem C4_terminal_minimax_value_witness :
    (is_game_over ⟨'O', 'O', 'O', 'X', 'X', ' ', ' ', ' ', ' '⟩).1 = true ∧
    (minimax 'O' 'X' ⟨'O', 'O', 'O', 'X', 'X', ' ', ' ', ' ', ' '⟩ 3 true
        Score.negInf Score.posInf).1 = Score.num 7 := by
  refine ⟨by decide, ?_⟩
  rw [C4_terminal_minimax_value 'O' 'X' ⟨'O', 'O', 'O', 'X', 'X', ' ', ' ', ' ', ' '⟩ 3 true
    Score.negInf Score.posInf (by decide) (by decide) (by decide) (by decide) (by decide) (by decide)]
  decide

theorem le_foldl_max (l : List Score) (a x : Score) (h : x ≤ a) : x ≤ l.foldl max a := by
  induction l generalizing a with
  | nil => exact h
  | cons y l ih => exact ih (max a y) (le_trans h (le_max_left a y))

theorem mem_le_foldl_max (l : List Score) (a x : Score) (h : x ∈ l) : x ≤ l.foldl max a := by
  induction l generalizing a with
  | nil => cases h
  | cons y l ih =>
    rcases List.mem_cons.mp h with rfl | h
    · exact le_foldl_max l (max a x) x (le_max_right a x)
    · exact ih (max a y) h

theorem foldl_min_le (l : List Score) (a x : Score) (h : a ≤ x) : l.foldl min a ≤ x := by
  induction l generalizing a with
  | nil => exact h
  | cons y l ih => exact ih (min a y) (le_trans (min_le_left a y) h)

theorem foldl_min_le_mem (l : List Score) (a x : Score) (h : x ∈ l) : l.foldl min a ≤ x := by
  induction l generalizing a with
  | nil => cases h
  | cons y l ih =>
    rcases List.mem_cons.mp h with rfl | h
    · exact foldl_min_le l (min a x) x (min_le_right a x)
    · exact ih (min a y) h

theorem abMaxLoop_ge_acc (next : Board → Score → Score → Score × Board) (mark : Cell)
    (β : Score) : ∀ (moves : List (Nat × Nat)) (b : Board) (α acc : Score),
    acc ≤ (abMaxLoop next mark β moves b α acc).1 := by
  intro moves
  induction moves with
  | nil => intro b α acc; exact le_refl acc
  | cons m rest ih =>
    rcases m with ⟨r, c⟩
    intro b α acc
    rw [abMaxLoop]
    rcases next (setCell b r c mark) α β with ⟨v, bc⟩
    dsimp only
    split
    · exact le_max_left acc v
    · exact le_trans (le_max_left acc v) (ih _ _ _)

theorem abMinLoop_le_acc (next : Board → Score → Score → Score × Board) (mark : Cell)
    (α : Score) : ∀ (moves : List (Nat × Nat)) (b : Board) (β acc : Score),
    (abMinLoop next mark α moves b β acc).1 ≤ acc := by
  intro moves
  induction moves with
  | nil => intro b β acc; exact le_refl acc
  | cons m rest ih =>
    rcases m with ⟨r, c⟩
    intro b β acc
    rw [abMinLoop]
    rcases next (setCell b r c mark) α β with ⟨v, bc⟩
    dsimp only
    split
    · exact min_le_left acc v
    · exact le_trans (ih _ _ _) (min_le_left acc v)

theorem abMaxLoop_km (next : Board → Score → Score → Score × Board) (mark : Cell)
    (β : Score) (fCH : Board → Score)
    (hnextB : ∀ b' α' β', (next b' α' β').2 = b')
    (hnextKM : ∀ b' α' β', α' < β' →
      (((next b' α' β').1 ≤ α' → fCH b' ≤ (next b' α' β').1) ∧
       (α' < (next b' α' β').1 → (next b' α' β').1 < β' → fCH b' = (next b' α' β').1) ∧
       (β' ≤ (next b' α' β').1 → (next b' α' β').1 ≤ fCH b'))) :
    ∀ (moves : List (Nat × Nat)) (b : Board) (α acc_ab acc_p : Score),
      (∀ m ∈ moves, m.1 < 3 ∧ m.2 < 3 ∧ getCell b m.1 m.2 = ' ') →
      α < β → acc_p ≤ acc_ab → (acc_ab ≤ α ∨ acc_ab = acc_p) →
      (((abMaxLoop next mark β moves b α acc_ab).1 ≤ α →
        (moves.map (fun rc => fCH (setCell b rc.1 rc.2 mark))).foldl max acc_p
          ≤ (abMaxLoop next mark β moves b α acc_ab).1) ∧
       (α < (abMaxLoop next mark β moves b α acc_ab).1 →
        (abMaxLoop next mark β moves b α acc_ab).1 < β →
        (moves.map (fun rc => fCH (setCell b rc.1 rc.2 mark))).foldl max acc_p
          = (abMaxLoop next mark β moves b α acc_ab).1) ∧
       (β ≤ (abMaxLoop next mark β moves b α acc_ab).1 →
        (abMaxLoop next mark β moves b α acc_ab).1
          ≤ (moves.map (fun rc => fCH (setCell b rc.1 rc.2 mark))).foldl max acc_p)) := by
  intro moves
  induction moves with
  | nil =>
    intro b α acc_ab acc_p hmv hαβ h2 h3
    simp only [abMaxLoop, List.map_nil, List.foldl_nil]
    refine ⟨fun _ => h2, fun hA _ => ?_, fun hB => ?_⟩
    · rcases h3 with h3 | h3
      · exact absurd (lt_of_lt_of_le hA h3) (lt_irrefl α)
      · exact h3.symm
    · rcases h3 with h3 | h3
      · exact absurd (lt_of_lt_of_le hαβ (le_trans hB h3)) (lt_irrefl α)
      · exact le_of_eq h3
  | cons m rest ih =>
    rcases m with ⟨r, c⟩
    intro b α acc_ab acc_p hmv hαβ h2 h3
    obtain ⟨hr, hc, hcell⟩ := hmv (r, c) (List.mem_cons_self _ _)
    have hrest := fun m hm => hmv m (List.mem_cons_of_mem _ hm)
    rw [abMaxLoop]
    rcases hres : next (setCell b r c mark) α β with ⟨g, bc⟩
    have hbc : bc = setCell b r c mark := by
      have := hnextB (setCell b r c mark) α β; rw [hres] at this; exact this
    have hundo : setCell bc r c ' ' = b := by
      rw [hbc]; exact setCell_setCell_cancel b r c mark hr hc hcell
    have hKM := hnextKM (setCell b r c mark) α β hαβ
    rw [hres] at hKM
    dsimp only at hKM ⊢
    simp only [List.map_cons, List.foldl_cons, hundo]
    by_cases hprune : β ≤ max α g
    · rw [if_pos hprune]
      dsimp only
      have hgβ : β ≤ g := by
        by_contra hng
        exact absurd hprune (not_le.mpr (max_lt hαβ (not_le.mp hng)))
      have hgv : g ≤ fCH (setCell b r c mark) := hKM.2.2 hgβ
      refine ⟨fun hA => ?_, fun hA1 hA2 => ?_, fun hB => ?_⟩
      · exact absurd
          (lt_of_lt_of_le hαβ (le_trans hgβ (le_trans (le_max_right acc_ab g) hA)))
          (lt_irrefl α)
      · exact absurd (lt_of_le_of_lt (le_trans hgβ (le_max_right acc_ab g)) hA2)
          (lt_irrefl β)
      · apply max_le
        · rcases h3 with h3 | h3
          · exact le_trans h3 (le_trans (le_of_lt hαβ) (le_trans hgβ
              (le_trans hgv (le_foldl_max _ _ _ (le_max_right acc_p _)))))
          · exact le_trans (le_of_eq h3)
              (le_foldl_max _ _ _ (le_max_left acc_p _))
        · exact le_trans hgv (le_foldl_max _ _ _ (le_max_right acc_p _))
    · rw [if_neg hprune]
      have hα'β : max α g < β := not_le.mp hprune
      by_cases hgα : g ≤ α
      · have hvg : fCH (setCell b r c mark) ≤ g := hKM.1 hgα
        have hα' : max α g = α := max_eq_left hgα
        rw [hα']
        have h2' : max acc_p (fCH (setCell b r c mark)) ≤ max acc_ab g := max_le_max h2 hvg
        have h3' : max acc_ab g ≤ α ∨ max acc_ab g = max acc_p (fCH (setCell b r c mark)) := by
          rcases h3 with h3 | h3
          · exact Or.inl (max_le h3 hgα)
          · rcases le_total acc_p α with hpα | hpα
            · exact Or.inl (max_le (h3 ▸ hpα) hgα)
            · subst h3
              right
              rw [max_eq_left (le_trans hgα hpα),
                max_eq_left (le_trans hvg (le_trans hgα hpα))]
        exact ih b α (max acc_ab g) (max acc_p (fCH (setCell b r c mark))) hrest hαβ h2' h3'
      · have hαg : α < g := not_le.mp hgα
        have hα' : max α g = g := max_eq_right (le_of_lt hαg)
        have hgβ2 : g < β := by rw [hα'] at hα'β; exact hα'β
        rw [hα']
        have hveq : fCH (setCell b r c mark) = g := hKM.2.1 hαg hgβ2
        have h2' : max acc_p (fCH (setCell b r c mark)) ≤ max acc_ab g :=
          max_le_max h2 (le_of_eq hveq)
        have h3' : max acc_ab g ≤ g ∨ max acc_ab g = max acc_p (fCH (setCell b r c mark)) := by
          rcases h3 with h3 | h3
          · exact Or.inl (max_le (le_trans h3 (le_of_lt hαg)) (le_refl g))
          · exact Or.inr (by rw [h3, hveq])
        have IH := ih b g (max acc_ab g) (max acc_p (fCH (setCell b r c mark))) hrest hgβ2 h2' h3'
        have hAacc : max acc_ab g ≤ (abMaxLoop next mark β rest b g (max acc_ab g)).1 :=
          abMaxLoop_ge_acc next mark β rest b g (max acc_ab g)
        have hAg : g ≤ (abMaxLoop next mark β rest b g (max acc_ab g)).1 :=
          le_trans (le_max_right _ _) hAacc
        refine ⟨fun hA => ?_, fun hA1 hA2 => ?_, fun hB => IH.2.2 hB⟩
        · exact absurd (le_trans hAg hA) (not_le.mpr hαg)
        · rcases le_or_lt (abMaxLoop next mark β rest b g (max acc_ab g)).1 g with hAle | hAgt
          · have hPge : g ≤ (rest.map (fun rc => fCH (setCell b rc.1 rc.2 mark))).foldl max
                (max acc_p (fCH (setCell b r c mark))) :=
              le_foldl_max _ _ _ (hveq ▸ le_max_right acc_p _)
            exact le_antisymm (IH.1 hAle) (le_trans hAle hPge)
          · exact IH.2.1 hAgt hA2

theorem abMinLoop_km (next : Board → Score → Score → Score × Board) (mark : Cell)
    (α : Score) (fCH : Board → Score)
    (hnextB : ∀ b' α' β', (next b' α' β').2 = b')
    (hnextKM : ∀ b' α' β', α' < β' →
      (((next b' α' β').1 ≤ α' → fCH b' ≤ (next b' α' β').1) ∧
       (α' < (next b' α' β').1 → (next b' α' β').1 < β' → fCH b' = (next b' α' β').1) ∧
       (β' ≤ (next b' α' β').1 → (next b' α' β').1 ≤ fCH b'))) :
    ∀ (moves : List (Nat × Nat)) (b : Board) (β acc_ab acc_p : Score),
      (∀ m ∈ moves, m.1 < 3 ∧ m.2 < 3 ∧ getCell b m.1 m.2 = ' ') →
      α < β → acc_ab ≤ acc_p → (β ≤ acc_ab ∨ acc_ab = acc_p) →
      (((abMinLoop next mark α moves b β acc_ab).1 ≤ α →
        (moves.map (fun rc => fCH (setCell b rc.1 rc.2 mark))).foldl min acc_p
          ≤ (abMinLoop next mark α moves b β acc_ab).1) ∧
       (α < (abMinLoop next mark α moves b β acc_ab).1 →
        (abMinLoop next mark α moves b β acc_ab).1 < β →
        (moves.map (fun rc => fCH (setCell b rc.1 rc.2 mark))).foldl min acc_p
          = (abMinLoop next mark α moves b β acc_ab).1) ∧
       (β ≤ (abMinLoop next mark α moves b β acc_ab).1 →
        (abMinLoop next mark α moves b β acc_ab).1
          ≤ (moves.map (fun rc => fCH (setCell b rc.1 rc.2 mark))).foldl min acc_p)) := by
  intro moves
  induction moves with
  | nil =>
    intro b β acc_ab acc_p hmv hαβ h2 h3
    simp only [abMinLoop, List.map_nil, List.foldl_nil]
    refine ⟨fun hA => ?_, fun hA1 hA2 => ?_, fun _ => h2⟩
    · rcases h3 with h3 | h3
      · exact absurd (lt_of_lt_of_le hαβ (le_trans h3 hA)) (lt_irrefl α)
      · exact le_of_eq (h3.symm)
    · rcases h3 with h3 | h3
      · exact absurd (lt_of_le_of_lt h3 hA2) (lt_irrefl β)
      · exact h3.symm
  | cons m rest ih =>
    rcases m with ⟨r, c⟩
    intro b β acc_ab acc_p hmv hαβ h2 h3
    obtain ⟨hr, hc, hcell⟩ := hmv (r, c) (List.mem_cons_self _ _)
    have hrest := fun m hm => hmv m (List.mem_cons_of_mem _ hm)
    rw [abMinLoop]
    rcases hres : next (setCell b r c mark) α β with ⟨g, bc⟩
    have hbc : bc = setCell b r c mark := by
      have := hnextB (setCell b r c mark) α β; rw [hres] at this; exact this
    have hundo : setCell bc r c ' ' = b := by
      rw [hbc]; exact setCell_setCell_cancel b r c mark hr hc hcell
    have hKM := hnextKM (setCell b r c mark) α β hαβ
    rw [hres] at hKM
    dsimp only at hKM ⊢
    simp only [List.map_cons, List.foldl_cons, hundo]
    by_cases hprune : min β g ≤ α
    · rw [if_pos hprune]
      dsimp only
      have hgα : g ≤ α := by
        by_contra hng
        exact absurd hprune (not_le.mpr (lt_min hαβ (not_le.mp hng)))
      have hvg : fCH (setCell b r c mark) ≤ g := hKM.1 hgα
      refine ⟨fun hA => ?_, fun hA1 hA2 => ?_, fun hB => ?_⟩
      · apply le_min
        · rcases h3 with h3 | h3
          · exact le_trans (foldl_min_le _ _ _ (le_trans (min_le_right acc_p _)
              (le_trans hvg (le_trans hgα (le_of_lt hαβ))))) h3
          · exact le_trans (foldl_min_le _ _ _ (min_le_left acc_p _)) (le_of_eq h3.symm)
        · exact le_trans (foldl_min_le _ _ _ (min_le_right acc_p _)) hvg
      · exact absurd (lt_of_lt_of_le hA1 (le_trans (min_le_right acc_ab g) hgα))
          (lt_irrefl α)
      · exact absurd
          (lt_of_lt_of_le hαβ (le_trans hB (le_trans (min_le_right acc_ab g) hgα)))
          (lt_irrefl α)
    · rw [if_neg hprune]
      have hαβ' : α < min β g := not_le.mp hprune
      by_cases hgβ : β ≤ g
      · have hvg : g ≤ fCH (setCell b r c mark) := hKM.2.2 hgβ
        have hβ' : min β g = β := min_eq_left hgβ
        rw [hβ']
        have h2' : min acc_ab g ≤ min acc_p (fCH (setCell b r c mark)) := min_le_min h2 hvg
        have h3' : β ≤ min acc_ab g ∨ min acc_ab g = min acc_p (fCH (setCell b r c mark)) := by
          rcases h3 with h3 | h3
          · exact Or.inl (le_min h3 hgβ)
          · rcases le_total β acc_p with hpβ | hpβ
            · exact Or.inl (le_min (h3 ▸ hpβ) hgβ)
            · subst h3
              right
              rw [min_eq_left (le_trans hpβ hgβ),
                min_eq_left (le_trans hpβ (le_trans hgβ hvg))]
        exact ih b β (min acc_ab g) (min acc_p (fCH (setCell b r c mark))) hrest hαβ h2' h3'
      · have hgβ2 : g < β := not_le.mp hgβ
        have hβ' : min β g = g := min_eq_right (le_of_lt hgβ2)
        have hαg : α < g := by rw [hβ'] at hαβ'; exact hαβ'
        rw [hβ']
        have hveq : fCH (setCell b r c mark) = g := hKM.2.1 hαg hgβ2
        have h2' : min acc_ab g ≤ min acc_p (fCH (setCell b r c mark)) :=
          min_le_min h2 (le_of_eq hveq.symm)
        have h3' : g ≤ min acc_ab g ∨ min acc_ab g = min acc_p (fCH (setCell b r c mark)) := by
          rcases h3 with h3 | h3
          · exact Or.inl (le_min (le_trans (le_of_lt hgβ2) h3) (le_refl g))
          · exact Or.inr (by rw [h3, hveq])
        have IH := ih b g (min acc_ab g) (min acc_p (fCH (setCell b r c mark))) hrest hαg h2' h3'
        have hAacc : (abMinLoop next mark α rest b g (min acc_ab g)).1 ≤ min acc_ab g :=
          abMinLoop_le_acc next mark α rest b g (min acc_ab g)
        have hAg : (abMinLoop next mark α rest b g (min acc_ab g)).1 ≤ g :=
          le_trans hAacc (min_le_right _ _)
        refine ⟨fun hA => IH.1 hA, fun hA1 hA2 => ?_, fun hB => ?_⟩
        · rcases le_or_lt g (abMinLoop next mark α rest b g (min acc_ab g)).1 with hAge | hAlt
          · have hPle : (rest.map (fun rc => fCH (setCell b rc.1 rc.2 mark))).foldl min
                (min acc_p (fCH (setCell b r c mark))) ≤ g :=
              foldl_min_le _ _ _ (le_trans (min_le_right acc_p _) (le_of_eq hveq))
            exact le_antisymm (le_trans hPle hAge) (IH.2.2 hAge)
          · exact IH.2.1 hA1 hAlt
        · exact absurd (lt_of_le_of_lt (le_trans hB hAg) hgβ2) (lt_irrefl β)

theorem minimaxF_km (ai hu : Cell) :
    ∀ (fuel : Nat) (b : Board) (depth : Nat) (maximizing : Bool) (α β : Score), α < β →
      (((minimaxF ai hu fuel b depth maximizing α β).1 ≤ α →
        plainF ai hu fuel b depth maximizing
          ≤ (minimaxF ai hu fuel b depth maximizing α β).1) ∧
       (α < (minimaxF ai hu fuel b depth maximizing α β).1 →
        (minimaxF ai hu fuel b depth maximizing α β).1 < β →
        plainF ai hu fuel b depth maximizing
          = (minimaxF ai hu fuel b depth maximizing α β).1) ∧
       (β ≤ (minimaxF ai hu fuel b depth maximizing α β).1 →
        (minimaxF ai hu fuel b depth maximizing α β).1
          ≤ plainF ai hu fuel b depth maximizing)) := by
  intro fuel
  induction fuel with
  | zero =>
    intro b depth maximizing α β hαβ
    exact ⟨fun _ => le_refl _, fun _ _ => rfl, fun _ => le_refl _⟩
  | succ f ih =>
    intro b depth maximizing α β hαβ
    rw [minimaxF, plainF]
    by_cases hterm : (is_game_over b).1
    · rw [if_pos hterm, if_pos hterm]
      exact ⟨fun _ => le_refl _, fun _ _ => rfl, fun _ => le_refl _⟩
    · rw [if_neg hterm, if_neg hterm]
      cases maximizing
      · rw [if_neg (by simp), if_neg (by simp)]
        exact abMinLoop_km _ hu α (fun b' => plainF ai hu f b' (depth + 1) true)
          (fun b' α' β' => minimaxF_board ai hu f b' (depth + 1) true α' β')
          (fun b' α' β' h => ih b' (depth + 1) true α' β' h)
          (get_available_moves b) b β Score.posInf Score.posInf
          (fun m hm => (mem_avail b m).mp hm) hαβ (le_refl _) (Or.inr rfl)
      · rw [if_pos (by trivial), if_pos (by trivial)]
        exact abMaxLoop_km _ ai β (fun b' => plainF ai hu f b' (depth + 1) false)
          (fun b' α' β' => minimaxF_board ai hu f b' (depth + 1) false α' β')
          (fun b' α' β' h => ih b' (depth + 1) false α' β' h)
          (get_available_moves b) b α Score.negInf Score.negInf
          (fun m hm => (mem_avail b m).mp hm) hαβ (le_refl _) (Or.inr rfl)

theorem minimax_rootEq (ai hu : Cell) (b : Board) (depth : Nat) (maximizing : Bool) :
    (minimax ai hu b depth maximizing Score.negInf Score.posInf).1
      = plainF ai hu 9 b depth maximizing := by
  have hlt : (Score.negInf : Score) < Score.posInf := by decide
  have h := minimaxF_km ai hu 9 b depth maximizing Score.negInf Score.posInf hlt
  rw [minimax]
  rcases le_or_lt (minimaxF ai hu 9 b depth maximizing .negInf .posInf).1 Score.negInf
    with h1 | h1
  · have hx := (Score.le_negInf_iff _).mp h1
    have hp := h.1 h1
    rw [hx] at hp
    rw [hx, (Score.le_negInf_iff _).mp hp]
  · rcases le_or_lt Score.posInf (minimaxF ai hu 9 b depth maximizing .negInf .posInf).1
      with h2 | h2
    · have hx := (Score.posInf_le_iff _).mp h2
      have hp := h.2.2 h2
      rw [hx] at hp
      rw [hx, (Score.posInf_le_iff _).mp hp]
    · exact (h.2.1 h1 h2).symm

theorem bmLoop_eq_plainBmLoop (ai hu : Cell) :
    ∀ (moves : List (Nat × Nat)) (b : Board) (bs : Score) (bm : Option (Nat × Nat)),
      (∀ m ∈ moves, m.1 < 3 ∧ m.2 < 3 ∧ getCell b m.1 m.2 = ' ') →
      (bmLoop ai hu moves b bs bm).1 = plainBmLoop ai hu b moves bs bm := by
  intro moves
  induction moves with
  | nil => intro b bs bm _; rfl
  | cons m rest ih =>
    rcases m with ⟨r, c⟩
    intro b bs bm hmv
    obtain ⟨hr, hc, hcell⟩ := hmv (r, c) (List.mem_cons_self _ _)
    have hrest := fun m hm => hmv m (List.mem_cons_of_mem _ hm)
    rw [bmLoop, plainBmLoop]
    rcases hres : minimax ai hu (setCell b r c ai) 0 false .negInf .posInf with ⟨g, bc⟩
    have hbc : bc = setCell b r c ai := by
      have := minimax_board ai hu (setCell b r c ai) 0 false .negInf .posInf
      rw [hres] at this; exact this
    have hundo : setCell bc r c ' ' = b := by
      rw [hbc]; exact setCell_setCell_cancel b r c ai hr hc hcell
    have hg : g = plainF ai hu 9 (setCell b r c ai) 0 false := by
      have := minimax_rootEq ai hu (setCell b r c ai) 0 false
      rw [hres] at this; exact this
    dsimp only
    rw [hundo, ← hg]
    split <;> exact ih b _ _ hrest

/-- C5: with the bounds reset to `-inf`/`inf` at each root candidate (as
`get_best_move` does), alpha-beta pruning does not change the selected
move: `get_best_move` returns exactly the move the same candidate loop
computes from plain minimax scores with no cutoffs. -/
theorem C5_pruning_preserves_best_move (ai hu : Cell) (b : Board)
    (h : is_board_full b = false) :
    (get_best_move ai hu b).1 = get_best_move_plain ai hu b :=
  bmLoop_eq_plainBmLoop ai hu (get_available_moves b) b .negInf none
    (fun m hm => (mem_avail b m).mp hm)

theorem C5_pruning_preserves_best_move_witness :
    is_board_full ⟨'X', 'O', 'X', 'O', 'X', 'O', 'O', 'X', ' '⟩ = false ∧
    (get_best_move 'O' 'X' ⟨'X', 'O', 'X', 'O', 'X', 'O', 'O', 'X', ' '⟩).1
      = get_best_move_plain 'O' 'X' ⟨'X', 'O', 'X', 'O', 'X', 'O', 'O', 'X', ' '⟩ :=
  ⟨by decide, C5_pruning_preserves_best_move 'O' 'X' _ (by decide)⟩

theorem terminalScore_isNum (ai hu : Cell) (b : Board) (depth : Nat) :
    ∃ n, terminalScore ai hu b depth = Score.num n := by
  rw [terminalScore]
  split_ifs <;> exact ⟨_, rfl⟩

theorem max_num_isNum (acc : Score) (k : ℤ)
    (hacc : acc = Score.negInf ∨ ∃ n, acc = Score.num n) :
    ∃ n, max acc (Score.num k) = Score.num n := by
  rcases hacc with rfl | ⟨n, rfl⟩
  · exact ⟨k, max_eq_right (Score.negInf_le _)⟩
  · rw [max_def]; split_ifs <;> exact ⟨_, rfl⟩

theorem min_num_isNum (acc : Score) (k : ℤ)
    (hacc : acc = Score.posInf ∨ ∃ n, acc = Score.num n) :
    ∃ n, min acc (Score.num k) = Score.num n := by
  rcases hacc with rfl | ⟨n, rfl⟩
  · exact ⟨k, min_eq_right (Score.le_posInf _)⟩
  · rw [min_def]; split_ifs <;> exact ⟨_, rfl⟩

theorem abMaxLoop_isNum (next : Board → Score → Score → Score × Board) (mark : Cell)
    (β : Score) (hnext : ∀ b' α' β', ∃ n, (next b' α' β').1 = Score.num n) :
    ∀ (moves : List (Nat × Nat)) (b : Board) (α acc : Score),
      (acc = Score.negInf ∨ ∃ n, acc = Score.num n) →
      (moves ≠ [] ∨ ∃ n, acc = Score.num n) →
      ∃ n, (abMaxLoop next mark β moves b α acc).1 = Score.num n := by
  intro moves
  induction moves with
  | nil =>
    intro b α acc hacc hne
    rcases hne with hne | hn
    · exact absurd rfl hne
    · exact hn
  | cons m rest ih =>
    rcases m with ⟨r, c⟩
    intro b α acc hacc hne
    rw [abMaxLoop]
    rcases hres : next (setCell b r c mark) α β with ⟨g, bc⟩
    obtain ⟨k, hk⟩ := hnext (setCell b r c mark) α β
    rw [hres] at hk
    dsimp only at hk ⊢
    subst hk
    obtain ⟨n, hn⟩ := max_num_isNum acc k hacc
    split
    · exact ⟨n, hn⟩
    · exact ih _ _ _ (Or.inr ⟨n, hn⟩) (Or.inr ⟨n, hn⟩)

theorem abMinLoop_isNum (next : Board → Score → Score → Score × Board) (mark : Cell)
    (α : Score) (hnext : ∀ b' α' β', ∃ n, (next b' α' β').1 = Score.num n) :
    ∀ (moves : List (Nat × Nat)) (b : Board) (β acc : Score),
      (acc = Score.posInf ∨ ∃ n, acc = Score.num n) →
      (moves ≠ [] ∨ ∃ n, acc = Score.num n) →
      ∃ n, (abMinLoop next mark α moves b β acc).1 = Score.num n := by
  intro moves
  induction moves with
  | nil =>
    intro b β acc hacc hne
    rcases hne with hne | hn
    · exact absurd rfl hne
    · exact hn
  | cons m rest ih =>
    rcases m with ⟨r, c⟩
    intro b β acc hacc hne
    rw [abMinLoop]
    rcases hres : next (setCell b r c mark) α β with ⟨g, bc⟩
    obtain ⟨k, hk⟩ := hnext (setCell b r c mark) α β
    rw [hres] at hk
    dsimp only at hk ⊢
    subst hk
    obtain ⟨n, hn⟩ := min_num_isNum acc k hacc
    split
    · exact ⟨n, hn⟩
    · exact ih _ _ _ (Or.inr ⟨n, hn⟩) (Or.inr ⟨n, hn⟩)

theorem minimaxF_isNum (ai hu : Cell) :
    ∀ (fuel : Nat) (b : Board) (depth : Nat) (maximizing : Bool) (α β : Score),
      ∃ n, (minimaxF ai hu fuel b depth maximizing α β).1 = Score.num n := by
  intro fuel
  induction fuel with
  | zero => intro b depth maximizing α β; exact ⟨0, rfl⟩
  | succ f ih =>
    intro b depth maximizing α β
    rw [minimaxF]
    by_cases hterm : (is_game_over b).1
    · rw [if_pos hterm]
      exact terminalScore_isNum ai hu b depth
    · rw [if_neg hterm]
      have hmoves : get_available_moves b ≠ [] :=
        game_over_false_avail_ne_nil b (by rwa [Bool.not_eq_true] at hterm)
      cases maximizing
      · rw [if_neg (by simp)]
        exact abMinLoop_isNum _ hu α (fun b' α' β' => ih b' (depth + 1) true α' β')
          (get_available_moves b) b β Score.posInf (Or.inl rfl) (Or.inl hmoves)
      · rw [if_pos (by trivial)]
        exact abMaxLoop_isNum _ ai β (fun b' α' β' => ih b' (depth + 1) false α' β')
          (get_available_moves b) b α Score.negInf (Or.inl rfl) (Or.inl hmoves)

theorem rootScore_isNum (ai hu : Cell) (b : Board) (m : Nat × Nat) :
    ∃ n, rootScore ai hu b m = Score.num n :=
  minimaxF_isNum ai hu 9 (setCell b m.1 m.2 ai) 0 false Score.negInf Score.posInf

theorem bmLoop_find (ai hu : Cell) :
    ∀ (l : List (Nat × Nat)) (b : Board) (m0 : Nat × Nat),
      (∀ m ∈ l, m.1 < 3 ∧ m.2 < 3 ∧ getCell b m.1 m.2 = ' ') →
      (bmLoop ai hu l b (rootScore ai hu b m0) (some m0)).1 =
        List.find? (fun m => rootScore ai hu b m ==
            (l.map (rootScore ai hu b)).foldl max (rootScore ai hu b m0)) (m0 :: l) := by
  intro l
  induction l with
  | nil =>
    intro b m0 _
    rw [bmLoop]
    dsimp only
    rw [List.map_nil, List.foldl_nil, List.find?_cons_of_pos _ (by simp)]
  | cons m rest ih =>
    rcases m with ⟨r, c⟩
    intro b m0 hmv
    obtain ⟨hr, hc, hcell⟩ := hmv (r, c) (List.mem_cons_self _ _)
    have hrest := fun m hm => hmv m (List.mem_cons_of_mem _ hm)
    rw [bmLoop]
    rcases hres : minimax ai hu (setCell b r c ai) 0 false .negInf .posInf with ⟨g, bc⟩
    have hg : rootScore ai hu b (r, c) = g := by
      rw [rootScore]; dsimp only; rw [hres]
    have hbc : bc = setCell b r c ai := by
      have := minimax_board ai hu (setCell b r c ai) 0 false .negInf .posInf
      rw [hres] at this; exact this
    have hundo : setCell bc r c ' ' = b := by
      rw [hbc]; exact setCell_setCell_cancel b r c ai hr hc hcell
    dsimp only
    rw [hundo, ← hg]
    simp only [List.map_cons, List.foldl_cons]
    by_cases hlt : rootScore ai hu b m0 < rootScore ai hu b (r, c)
    · rw [if_pos hlt, max_eq_right (le_of_lt hlt)]
      have hM : rootScore ai hu b (r, c) ≤
          ((rest.map (rootScore ai hu b)).foldl max (rootScore ai hu b (r, c))) :=
        le_foldl_max _ _ _ (le_refl _)
      rw [List.find?_cons_of_neg _ (by
        simp only [beq_iff_eq]
        intro heq
        exact absurd (lt_of_lt_of_le hlt hM) (by rw [← heq]; exact lt_irrefl _))]
      exact ih b (r, c) hrest
    · rw [if_neg hlt, max_eq_left (not_lt.mp hlt)]
      have hIH := ih b m0 hrest
      by_cases hm0 : rootScore ai hu b m0 =
          (rest.map (rootScore ai hu b)).foldl max (rootScore ai hu b m0)
      · rw [List.find?_cons_of_pos _ (by simpa using hm0)]
        rw [hIH, List.find?_cons_of_pos _ (by simpa using hm0)]
      · rw [List.find?_cons_of_neg _ (by simpa using hm0)]
        rw [hIH, List.find?_cons_of_neg _ (by simpa using hm0)]
        rw [List.find?_cons_of_neg _ (by
          simp only [beq_iff_eq]
          intro heq
          have h1 : rootScore ai hu b m0 ≤
              (rest.map (rootScore ai hu b)).foldl max (rootScore ai hu b m0) :=
            le_foldl_max _ _ _ (le_refl _)
          exact hm0 (le_antisymm h1 (heq ▸ not_lt.mp hlt)))]

theorem Score.negInf_lt_num (n : ℤ) : Score.negInf < Score.num n :=
  lt_of_le_not_le (Score.negInf_le _) (fun hh => hh)

/-- C2 counterexample: on the board `OO_/XX_/___` with AI `'O'`, the score
`get_best_move` computes for the winning candidate (0, 2) is
`minimax(board after the move, depth = 0, maximizing = False) = 10`
(line 207 of the source passes depth 0), while the claim's
`depth = 1` call would yield `9`; so `get_best_move` does not call the
search with depth 1 as the claim states. -/
theorem C2_counterexample_depth :
    (minimax 'O' 'X' (setCell ⟨'O', 'O', ' ', 'X', 'X', ' ', ' ', ' ', ' '⟩ 0 2 'O')
        0 false Score.negInf Score.posInf).1 = Score.num 10 ∧
    (minimax 'O' 'X' (setCell ⟨'O', 'O', ' ', 'X', 'X', ' ', ' ', ' ', ' '⟩ 0 2 'O')
        1 false Score.negInf Score.posInf).1 = Score.num 9 ∧
    Score.num 10 ≠ Score.num 9 := by
  refine ⟨rfl, rfl, ?_⟩
  decide

/-- C2 (amended): for every board with at least one empty cell,
`get_best_move` iterates over `get_available_moves()` in row-major order,
applies each candidate for the maximizing side, scores it by
`minimax(board, depth = 0, maximizing = False)` with the default bounds,
undoes the candidate, and returns the first move attaining the maximum of
those scores (later candidates replace the incumbent only on strict
improvement, so the earliest maximum wins). -/
theorem C2_best_move_first_max_score (ai hu : Cell) (b : Board)
    (h : is_board_full b = false) :
    (get_best_move ai hu b).1 = firstMaxMove ai hu b := by
  have havail : get_available_moves b ≠ [] := by
    intro hnil
    have := (full_iff_avail_nil b).mpr hnil
    rw [this] at h
    cases h
  rcases hl : get_available_moves b with _ | ⟨m1, rest⟩
  · exact absurd hl havail
  · rcases m1 with ⟨r, c⟩
    have hmv := fun m hm => (mem_avail b m).mp (hl ▸ hm : m ∈ get_available_moves b)
    obtain ⟨hr, hc, hcell⟩ := hmv (r, c) (List.mem_cons_self _ _)
    have hrest := fun m hm => hmv m (List.mem_cons_of_mem _ hm)
    rw [get_best_move, firstMaxMove, maxRootScore, hl]
    rw [bmLoop]
    rcases hres : minimax ai hu (setCell b r c ai) 0 false .negInf .posInf with ⟨g, bc⟩
    have hg : rootScore ai hu b (r, c) = g := by
      rw [rootScore]; dsimp only; rw [hres]
    have hbc : bc = setCell b r c ai := by
      have := minimax_board ai hu (setCell b r c ai) 0 false .negInf .posInf
      rw [hres] at this; exact this
    have hundo : setCell bc r c ' ' = b := by
      rw [hbc]; exact setCell_setCell_cancel b r c ai hr hc hcell
    obtain ⟨n, hn⟩ := rootScore_isNum ai hu b (r, c)
    have hgn : g = Score.num n := hg.symm.trans hn
    have hlt : Score.negInf < g := by rw [hgn]; exact Score.negInf_lt_num n
    dsimp only
    rw [hundo, if_pos hlt, ← hg]
    rw [bmLoop_find ai hu rest b (r, c) hrest]
    simp only [List.map_cons, List.foldl_cons]
    rw [max_eq_right (Score.negInf_le _)]

theorem C2_best_move_first_max_score_witness :
    is_board_full ⟨'O', 'O', ' ', 'X', 'X', ' ', ' ', ' ', ' '⟩ = false ∧
    (get_best_move 'O' 'X' ⟨'O', 'O', ' ', 'X', 'X', ' ', ' ', ' ', ' '⟩).1
      = firstMaxMove 'O' 'X' ⟨'O', 'O', ' ', 'X', 'X', ' ', ' ', ' ', ' '⟩ :=
  ⟨by decide, C2_best_move_first_max_score 'O' 'X' _ (by decide)⟩

theorem cellCode_lt_four (ai hu c : Cell) : cellCode ai hu c < 4 := by
  rw [cellCode]; split_ifs <;> omega

theorem cellCode_blank (ai hu : Cell) (hai : ai ≠ ' ') (hhu : hu ≠ ' ') :
    cellCode ai hu ' ' = 0 := by
  rw [cellCode, if_neg (by simpa using Ne.symm hai), if_neg (by simpa using Ne.symm hhu)]

theorem cellCode_ai (ai hu : Cell) : cellCode ai hu ai = 1 := by
  rw [cellCode, if_pos (by simp)]

theorem cellCode_hu (ai hu : Cell) (hne : ai ≠ hu) : cellCode ai hu hu = 2 := by
  rw [cellCode, if_neg (by simpa using Ne.symm hne), if_pos (by simp)]

theorem cellCode_eqb (ai hu : Cell) (hne : ai ≠ hu) (hai : ai ≠ ' ') (hhu : hu ≠ ' ')
    (x y : Cell) (hx : x = ' ' ∨ x = ai ∨ x = hu) (hy : y = ' ' ∨ y = ai ∨ y = hu) :
    (cellCode ai hu x == cellCode ai hu y) = (x == y) := by
  rcases hx with h | h | h <;> rcases hy with h' | h' | h' <;> rw [h, h'] <;>
    simp [cellCode_blank ai hu hai hhu, cellCode_ai, cellCode_hu ai hu hne,
      hne, hai, hhu, Ne.symm hne, Ne.symm hai, Ne.symm hhu]

theorem cellCode_nzb (ai hu : Cell) (hne : ai ≠ hu) (hai : ai ≠ ' ') (hhu : hu ≠ ' ')
    (z : Cell) (hz : z = ' ' ∨ z = ai ∨ z = hu) :
    (cellCode ai hu z != 0) = (z != ' ') := by
  rcases hz with h | h | h <;> rw [h] <;>
    simp [cellCode_blank ai hu hai hhu, cellCode_ai, cellCode_hu ai hu hne, hai, hhu]

theorem cellCode_zb (ai hu : Cell) (hne : ai ≠ hu) (hai : ai ≠ ' ') (hhu : hu ≠ ' ')
    (z : Cell) (hz : z = ' ' ∨ z = ai ∨ z = hu) :
    (cellCode ai hu z == 0) = (z == ' ') := by
  rcases hz with h | h | h <;> rw [h] <;>
    simp [cellCode_blank ai hu hai hhu, cellCode_ai, cellCode_hu ai hu hne, hai, hhu]

theorem boardUses_cells (ai hu : Cell) (b : Board) (hb : boardUses ai hu b = true) :
    (b.c00 = ' ' ∨ b.c00 = ai ∨ b.c00 = hu) ∧
    (b.c01 = ' ' ∨ b.c01 = ai ∨ b.c01 = hu) ∧
    (b.c02 = ' ' ∨ b.c02 = ai ∨ b.c02 = hu) ∧
    (b.c10 = ' ' ∨ b.c10 = ai ∨ b.c10 = hu) ∧
    (b.c11 = ' ' ∨ b.c11 = ai ∨ b.c11 = hu) ∧
    (b.c12 = ' ' ∨ b.c12 = ai ∨ b.c12 = hu) ∧
    (b.c20 = ' ' ∨ b.c20 = ai ∨ b.c20 = hu) ∧
    (b.c21 = ' ' ∨ b.c21 = ai ∨ b.c21 = hu) ∧
    (b.c22 = ' ' ∨ b.c22 = ai ∨ b.c22 = hu) := by
  simp only [boardUses, Bool.and_eq_true, Bool.or_eq_true, beq_iff_eq, and_assoc, or_assoc] at hb
  exact hb

theorem getd_digit (d0 d1 d2 d3 d4 d5 d6 d7 d8 : Nat)
    (h0 : d0 < 4) (h1 : d1 < 4) (h2 : d2 < 4) (h3 : d3 < 4) (h4 : d4 < 4)
    (h5 : d5 < 4) (h6 : d6 < 4) (h7 : d7 < 4) (h8 : d8 < 4) :
    getd (d0 + 4 * (d1 + 4 * (d2 + 4 * (d3 + 4 * (d4 + 4 * (d5 + 4 * (d6 + 4 * (d7 + 4 * d8)))))))) 0 = d0 ∧
    getd (d0 + 4 * (d1 + 4 * (d2 + 4 * (d3 + 4 * (d4 + 4 * (d5 + 4 * (d6 + 4 * (d7 + 4 * d8)))))))) 1 = d1 ∧
    getd (d0 + 4 * (d1 + 4 * (d2 + 4 * (d3 + 4 * (d4 + 4 * (d5 + 4 * (d6 + 4 * (d7 + 4 * d8)))))))) 2 = d2 ∧
    getd (d0 + 4 * (d1 + 4 * (d2 + 4 * (d3 + 4 * (d4 + 4 * (d5 + 4 * (d6 + 4 * (d7 + 4 * d8)))))))) 3 = d3 ∧
    getd (d0 + 4 * (d1 + 4 * (d2 + 4 * (d3 + 4 * (d4 + 4 * (d5 + 4 * (d6 + 4 * (d7 + 4 * d8)))))))) 4 = d4 ∧
    getd (d0 + 4 * (d1 + 4 * (d2 + 4 * (d3 + 4 * (d4 + 4 * (d5 + 4 * (d6 + 4 * (d7 + 4 * d8)))))))) 5 = d5 ∧
    getd (d0 + 4 * (d1 + 4 * (d2 + 4 * (d3 + 4 * (d4 + 4 * (d5 + 4 * (d6 + 4 * (d7 + 4 * d8)))))))) 6 = d6 ∧
    getd (d0 + 4 * (d1 + 4 * (d2 + 4 * (d3 + 4 * (d4 + 4 * (d5 + 4 * (d6 + 4 * (d7 + 4 * d8)))))))) 7 = d7 ∧
    getd (d0 + 4 * (d1 + 4 * (d2 + 4 * (d3 + 4 * (d4 + 4 * (d5 + 4 * (d6 + 4 * (d7 + 4 * d8)))))))) 8 = d8 := by
  have p0 : Nat.pow 4 0 = 1 := rfl
  have p1 : Nat.pow 4 1 = 4 := rfl
  have p2 : Nat.pow 4 2 = 16 := rfl
  have p3 : Nat.pow 4 3 = 64 := rfl
  have p4 : Nat.pow 4 4 = 256 := rfl
  have p5 : Nat.pow 4 5 = 1024 := rfl
  have p6 : Nat.pow 4 6 = 4096 := rfl
  have p7 : Nat.pow 4 7 = 16384 := rfl
  have p8 : Nat.pow 4 8 = 65536 := rfl
  simp only [getd, p0, p1, p2, p3, p4, p5, p6, p7, p8]
  refine ⟨?_, ?_, ?_, ?_, ?_, ?_, ?_, ?_, ?_⟩ <;> omega

theorem setd_digit (d0 d1 d2 d3 d4 d5 d6 d7 d8 m : Nat)
    (h0 : d0 < 4) (h1 : d1 < 4) (h2 : d2 < 4) (h3 : d3 < 4) (h4 : d4 < 4)
    (h5 : d5 < 4) (h6 : d6 < 4) (h7 : d7 < 4) (h8 : d8 < 4) (hm : m < 4) :
    setd (d0 + 4 * (d1 + 4 * (d2 + 4 * (d3 + 4 * (d4 + 4 * (d5 + 4 * (d6 + 4 * (d7 + 4 * d8)))))))) 0 m
      = m + 4 * (d1 + 4 * (d2 + 4 * (d3 + 4 * (d4 + 4 * (d5 + 4 * (d6 + 4 * (d7 + 4 * d8))))))) ∧
    setd (d0 + 4 * (d1 + 4 * (d2 + 4 * (d3 + 4 * (d4 + 4 * (d5 + 4 * (d6 + 4 * (d7 + 4 * d8)))))))) 1 m
      = d0 + 4 * (m + 4 * (d2 + 4 * (d3 + 4 * (d4 + 4 * (d5 + 4 * (d6 + 4 * (d7 + 4 * d8))))))) ∧
    setd (d0 + 4 * (d1 + 4 * (d2 + 4 * (d3 + 4 * (d4 + 4 * (d5 + 4 * (d6 + 4 * (d7 + 4 * d8)))))))) 2 m
      = d0 + 4 * (d1 + 4 * (m + 4 * (d3 + 4 * (d4 + 4 * (d5 + 4 * (d6 + 4 * (d7 + 4 * d8))))))) ∧
    setd (d0 + 4 * (d1 + 4 * (d2 + 4 * (d3 + 4 * (d4 + 4 * (d5 + 4 * (d6 + 4 * (d7 + 4 * d8)))))))) 3 m
      = d0 + 4 * (d1 + 4 * (d2 + 4 * (m + 4 * (d4 + 4 * (d5 + 4 * (d6 + 4 * (d7 + 4 * d8))))))) ∧
    setd (d0 + 4 * (d1 + 4 * (d2 + 4 * (d3 + 4 * (d4 + 4 * (d5 + 4 * (d6 + 4 * (d7 + 4 * d8)))))))) 4 m
      = d0 + 4 * (d1 + 4 * (d2 + 4 * (d3 + 4 * (m + 4 * (d5 + 4 * (d6 + 4 * (d7 + 4 * d8))))))) ∧
    setd (d0 + 4 * (d1 + 4 * (d2 + 4 * (d3 + 4 * (d4 + 4 * (d5 + 4 * (d6 + 4 * (d7 + 4 * d8)))))))) 5 m
      = d0 + 4 * (d1 + 4 * (d2 + 4 * (d3 + 4 * (d4 + 4 * (m + 4 * (d6 + 4 * (d7 + 4 * d8))))))) ∧
    setd (d0 + 4 * (d1 + 4 * (d2 + 4 * (d3 + 4 * (d4 + 4 * (d5 + 4 * (d6 + 4 * (d7 + 4 * d8)))))))) 6 m
      = d0 + 4 * (d1 + 4 * (d2 + 4 * (d3 + 4 * (d4 + 4 * (d5 + 4 * (m + 4 * (d7 + 4 * d8))))))) ∧
    setd (d0 + 4 * (d1 + 4 * (d2 + 4 * (d3 + 4 * (d4 + 4 * (d5 + 4 * (d6 + 4 * (d7 + 4 * d8)))))))) 7 m
      = d0 + 4 * (d1 + 4 * (d2 + 4 * (d3 + 4 * (d4 + 4 * (d5 + 4 * (d6 + 4 * (m + 4 * d8))))))) ∧
    setd (d0 + 4 * (d1 + 4 * (d2 + 4 * (d3 + 4 * (d4 + 4 * (d5 + 4 * (d6 + 4 * (d7 + 4 * d8)))))))) 8 m
      = d0 + 4 * (d1 + 4 * (d2 + 4 * (d3 + 4 * (d4 + 4 * (d5 + 4 * (d6 + 4 * (d7 + 4 * m))))))) := by
  have p0 : Nat.pow 4 0 = 1 := rfl
  have p1 : Nat.pow 4 1 = 4 := rfl
  have p2 : Nat.pow 4 2 = 16 := rfl
  have p3 : Nat.pow 4 3 = 64 := rfl
  have p4 : Nat.pow 4 4 = 256 := rfl
  have p5 : Nat.pow 4 5 = 1024 := rfl
  have p6 : Nat.pow 4 6 = 4096 := rfl
  have p7 : Nat.pow 4 7 = 16384 := rfl
  have p8 : Nat.pow 4 8 = 65536 := rfl
  have p9 : Nat.pow 4 9 = 262144 := rfl
  simp only [setd, Nat.reduceAdd, p0, p1, p2, p3, p4, p5, p6, p7, p8, p9]
  refine ⟨?_, ?_, ?_, ?_, ?_, ?_, ?_, ?_, ?_⟩ <;> omega

theorem getd_encB (ai hu : Cell) (b : Board) :
    getd (encB ai hu b) 0 = cellCode ai hu b.c00 ∧
    getd (encB ai hu b) 1 = cellCode ai hu b.c01 ∧
    getd (encB ai hu b) 2 = cellCode ai hu b.c02 ∧
    getd (encB ai hu b) 3 = cellCode ai hu b.c10 ∧
    getd (encB ai hu b) 4 = cellCode ai hu b.c11 ∧
    getd (encB ai hu b) 5 = cellCode ai hu b.c12 ∧
    getd (encB ai hu b) 6 = cellCode ai hu b.c20 ∧
    getd (encB ai hu b) 7 = cellCode ai hu b.c21 ∧
    getd (encB ai hu b) 8 = cellCode ai hu b.c22 := by
  simp only [encB]
  exact getd_digit _ _ _ _ _ _ _ _ _
    (cellCode_lt_four ai hu b.c00) (cellCode_lt_four ai hu b.c01) (cellCode_lt_four ai hu b.c02)
    (cellCode_lt_four ai hu b.c10) (cellCode_lt_four ai hu b.c11) (cellCode_lt_four ai hu b.c12)
    (cellCode_lt_four ai hu b.c20) (cellCode_lt_four ai hu b.c21) (cellCode_lt_four ai hu b.c22)

theorem setd_encB (ai hu : Cell) (b : Board) (mk : Cell) :
    ∀ r c : Nat, r < 3 → c < 3 →
      setd (encB ai hu b) (3 * r + c) (cellCode ai hu mk) = encB ai hu (setCell b r c mk) := by
  have hd := setd_digit (cellCode ai hu b.c00) (cellCode ai hu b.c01) (cellCode ai hu b.c02)
    (cellCode ai hu b.c10) (cellCode ai hu b.c11) (cellCode ai hu b.c12)
    (cellCode ai hu b.c20) (cellCode ai hu b.c21) (cellCode ai hu b.c22) (cellCode ai hu mk)
    (cellCode_lt_four ai hu b.c00) (cellCode_lt_four ai hu b.c01) (cellCode_lt_four ai hu b.c02)
    (cellCode_lt_four ai hu b.c10) (cellCode_lt_four ai hu b.c11) (cellCode_lt_four ai hu b.c12)
    (cellCode_lt_four ai hu b.c20) (cellCode_lt_four ai hu b.c21) (cellCode_lt_four ai hu b.c22)
    (cellCode_lt_four ai hu mk)
  intro r c hr hc
  interval_cases r <;> interval_cases c
  · show setd (encB ai hu b) 0 (cellCode ai hu mk) = encB ai hu (setCell b 0 0 mk)
    simp only [setCell, encB]
    exact hd.1
  · show setd (encB ai hu b) 1 (cellCode ai hu mk) = encB ai hu (setCell b 0 1 mk)
    simp only [setCell, encB]
    exact hd.2.1
  · show setd (encB ai hu b) 2 (cellCode ai hu mk) = encB ai hu (setCell b 0 2 mk)
    simp only [setCell, encB]
    exact hd.2.2.1
  · show setd (encB ai hu b) 3 (cellCode ai hu mk) = encB ai hu (setCell b 1 0 mk)
    simp only [setCell, encB]
    exact hd.2.2.2.1
  · show setd (encB ai hu b) 4 (cellCode ai hu mk) = encB ai hu (setCell b 1 1 mk)
    simp only [setCell, encB]
    exact hd.2.2.2.2.1
  · show setd (encB ai hu b) 5 (cellCode ai hu mk) = encB ai hu (setCell b 1 2 mk)
    simp only [setCell, encB]
    exact hd.2.2.2.2.2.1
  · show setd (encB ai hu b) 6 (cellCode ai hu mk) = encB ai hu (setCell b 2 0 mk)
    simp only [setCell, encB]
    exact hd.2.2.2.2.2.2.1
  · show setd (encB ai hu b) 7 (cellCode ai hu mk) = encB ai hu (setCell b 2 1 mk)
    simp only [setCell, encB]
    exact hd.2.2.2.2.2.2.2.1
  · show setd (encB ai hu b) 8 (cellCode ai hu mk) = encB ai hu (setCell b 2 2 mk)
    simp only [setCell, encB]
    exact hd.2.2.2.2.2.2.2.2

theorem boardUses_setCell (ai hu : Cell) (b : Board) (hb : boardUses ai hu b = true)
    (mk : Cell) (hmk : mk = ' ' ∨ mk = ai ∨ mk = hu) :
    ∀ r c : Nat, boardUses ai hu (setCell b r c mk) = true := by
  intro r c
  have hmkb : (mk == ' ' || mk == ai || mk == hu) = true := by
    rcases hmk with h | h | h <;> rw [h] <;> simp
  rcases r with _ | _ | _ | r <;> rcases c with _ | _ | _ | c <;>
    simp only [setCell] <;>
    simp only [boardUses, Bool.and_eq_true, Bool.or_eq_true] at hb ⊢ <;>
    simp_all

theorem winnerN_encB (ai hu : Cell) (hne : ai ≠ hu) (hai : ai ≠ ' ') (hhu : hu ≠ ' ')
    (b : Board) (hb : boardUses ai hu b = true) :
    winnerN (encB ai hu b) =
      (match check_winner b with
       | some w => cellCode ai hu w
       | none => 0) := by
  obtain ⟨m00, m01, m02, m10, m11, m12, m20, m21, m22⟩ := boardUses_cells ai hu b hb
  obtain ⟨g0, g1, g2, g3, g4, g5, g6, g7, g8⟩ := getd_encB ai hu b
  rw [winnerN, g0, g1, g2, g3, g4, g5, g6, g7, g8]
  rw [cellCode_eqb ai hu hne hai hhu _ _ m00 m01,
      cellCode_eqb ai hu hne hai hhu _ _ m01 m02,
      cellCode_nzb ai hu hne hai hhu _ m02,
      cellCode_eqb ai hu hne hai hhu _ _ m10 m11,
      cellCode_eqb ai hu hne hai hhu _ _ m11 m12,
      cellCode_nzb ai hu hne hai hhu _ m12,
      cellCode_eqb ai hu hne hai hhu _ _ m20 m21,
      cellCode_eqb ai hu hne hai hhu _ _ m21 m22,
      cellCode_nzb ai hu hne hai hhu _ m22,
      cellCode_eqb ai hu hne hai hhu _ _ m00 m10,
      cellCode_eqb ai hu hne hai hhu _ _ m10 m20,
      cellCode_nzb ai hu hne hai hhu _ m20,
      cellCode_eqb ai hu hne hai hhu _ _ m01 m11,
      cellCode_eqb ai hu hne hai hhu _ _ m11 m21,
      cellCode_nzb ai hu hne hai hhu _ m21,
      cellCode_eqb ai hu hne hai hhu _ _ m02 m12,
      cellCode_eqb ai hu hne hai hhu _ _ m12 m22,
      cellCode_eqb ai hu hne hai hhu _ _ m00 m11,
      cellCode_eqb ai hu hne hai hhu _ _ m11 m22,
      cellCode_eqb ai hu hne hai hhu _ _ m02 m11,
      cellCode_eqb ai hu hne hai hhu _ _ m11 m20,
      check_winner]
  split_ifs <;> rfl

theorem fullN_encB (ai hu : Cell) (hne : ai ≠ hu) (hai : ai ≠ ' ') (hhu : hu ≠ ' ')
    (b : Board) (hb : boardUses ai hu b = true) :
    fullN (encB ai hu b) = is_board_full b := by
  obtain ⟨m00, m01, m02, m10, m11, m12, m20, m21, m22⟩ := boardUses_cells ai hu b hb
  obtain ⟨g0, g1, g2, g3, g4, g5, g6, g7, g8⟩ := getd_encB ai hu b
  rw [fullN, is_board_full, g0, g1, g2, g3, g4, g5, g6, g7, g8,
      cellCode_nzb ai hu hne hai hhu _ m00,
      cellCode_nzb ai hu hne hai hhu _ m01,
      cellCode_nzb ai hu hne hai hhu _ m02,
      cellCode_nzb ai hu hne hai hhu _ m10,
      cellCode_nzb ai hu hne hai hhu _ m11,
      cellCode_nzb ai hu hne hai hhu _ m12,
      cellCode_nzb ai hu hne hai hhu _ m20,
      cellCode_nzb ai hu hne hai hhu _ m21,
      cellCode_nzb ai hu hne hai hhu _ m22]

theorem availN_encB (ai hu : Cell) (hne : ai ≠ hu) (hai : ai ≠ ' ') (hhu : hu ≠ ' ')
    (b : Board) (hb : boardUses ai hu b = true) :
    availN (encB ai hu b) = get_available_moves b := by
  obtain ⟨m00, m01, m02, m10, m11, m12, m20, m21, m22⟩ := boardUses_cells ai hu b hb
  obtain ⟨g0, g1, g2, g3, g4, g5, g6, g7, g8⟩ := getd_encB ai hu b
  rw [availN, g0, g1, g2, g3, g4, g5, g6, g7, g8,
      cellCode_zb ai hu hne hai hhu _ m00,
      cellCode_zb ai hu hne hai hhu _ m01,
      cellCode_zb ai hu hne hai hhu _ m02,
      cellCode_zb ai hu hne hai hhu _ m10,
      cellCode_zb ai hu hne hai hhu _ m11,
      cellCode_zb ai hu hne hai hhu _ m12,
      cellCode_zb ai hu hne hai hhu _ m20,
      cellCode_zb ai hu hne hai hhu _ m21,
      cellCode_zb ai hu hne hai hhu _ m22,
      avail_eq_filter, rowMajorCells]
  have hsing : ∀ (c : Bool) (x : Nat × Nat) (L : List (Nat × Nat)),
      (if c = true then [x] else []) ++ L = if c = true then x :: L else L := by
    intro c x L; cases c <;> simp
  simp only [List.append_assoc]
  simp only [hsing]
  simp only [List.filter_cons, List.filter_nil, getCell]

theorem vMaxLoop_cons (next : Nat → Score → Score → Score) (β : Score) (b : Nat)
    (rc : Nat × Nat) (l : List (Nat × Nat)) (α acc : Score) :
    vMaxLoop next β b (rc :: l) α acc =
      (match next (setd b (3 * rc.1 + rc.2) 1) α β with
       | Score.negInf =>
         let acc' := Score.smax acc Score.negInf
         let α' := Score.smax α Score.negInf
         if Score.ble β α' then acc' else vMaxLoop next β b l α' acc'
       | Score.num n =>
         let acc' := Score.smax acc (Score.num n)
         let α' := Score.smax α (Score.num n)
         if Score.ble β α' then acc' else vMaxLoop next β b l α' acc'
       | Score.posInf =>
         let acc' := Score.smax acc Score.posInf
         let α' := Score.smax α Score.posInf
         if Score.ble β α' then acc' else vMaxLoop next β b l α' acc') := rfl

theorem vMinLoop_cons (next : Nat → Score → Score → Score) (α : Score) (b : Nat)
    (rc : Nat × Nat) (l : List (Nat × Nat)) (β acc : Score) :
    vMinLoop next α b (rc :: l) β acc =
      (match next (setd b (3 * rc.1 + rc.2) 2) α β with
       | Score.negInf =>
         let acc' := Score.smin acc Score.negInf
         let β' := Score.smin β Score.negInf
         if Score.ble β' α then acc' else vMinLoop next α b l β' acc'
       | Score.num n =>
         let acc' := Score.smin acc (Score.num n)
         let β' := Score.smin β (Score.num n)
         if Score.ble β' α then acc' else vMinLoop next α b l β' acc'
       | Score.posInf =>
         let acc' := Score.smin acc Score.posInf
         let β' := Score.smin β Score.posInf
         if Score.ble β' α then acc' else vMinLoop next α b l β' acc') := rfl

theorem minimaxV_succ (f : Nat) (b : Nat) (depth : Nat) (maximizing : Bool) (α β : Score) :
    minimaxV (f + 1) b depth maximizing α β =
      (match winnerN b with
       | 0 =>
         if fullN b then .num 0
         else if maximizing then
           vMaxLoop (fun b1 α' β' => minimaxV f b1 (depth + 1) false α' β') β b (availN b) α .negInf
         else
           vMinLoop (fun b1 α' β' => minimaxV f b1 (depth + 1) true α' β') α b (availN b) β .posInf
       | w => if w == 1 then .num (10 - (depth : ℤ)) else .num (-10 + (depth : ℤ))) := rfl

theorem vMaxLoop_eq_abMaxLoop (ai hu : Cell)
    (nextF : Board → Score → Score → Score × Board)
    (nextV : Nat → Score → Score → Score) (β : Score)
    (hnextB : ∀ b' α' β', (nextF b' α' β').2 = b') :
    ∀ (l : List (Nat × Nat)) (b : Board),
      (∀ m ∈ l, m.1 < 3 ∧ m.2 < 3 ∧ getCell b m.1 m.2 = ' ') →
      (∀ r c, (r, c) ∈ l → ∀ α' β',
        nextV (setd (encB ai hu b) (3 * r + c) 1) α' β' = (nextF (setCell b r c ai) α' β').1) →
      ∀ α acc, vMaxLoop nextV β (encB ai hu b) l α acc = (abMaxLoop nextF ai β l b α acc).1 := by
  intro l
  induction l with
  | nil => intro b _ _ α acc; rfl
  | cons m rest ih =>
    rcases m with ⟨r, c⟩
    intro b hmv hnx α acc
    obtain ⟨hr, hc, hcell⟩ := hmv (r, c) (List.mem_cons_self _ _)
    have hrest := fun m hm => hmv m (List.mem_cons_of_mem _ hm)
    have hnxrest := fun r' c' hm => hnx r' c' (List.mem_cons_of_mem _ hm)
    rw [abMaxLoop, vMaxLoop_cons]
    dsimp only
    have harm : ∀ s : Score,
        (match s with
         | Score.negInf =>
           let acc' := Score.smax acc Score.negInf
           let α' := Score.smax α Score.negInf
           if Score.ble β α' then acc' else vMaxLoop nextV β (encB ai hu b) rest α' acc'
         | Score.num n =>
           let acc' := Score.smax acc (Score.num n)
           let α' := Score.smax α (Score.num n)
           if Score.ble β α' then acc' else vMaxLoop nextV β (encB ai hu b) rest α' acc'
         | Score.posInf =>
           let acc' := Score.smax acc Score.posInf
           let α' := Score.smax α Score.posInf
           if Score.ble β α' then acc' else vMaxLoop nextV β (encB ai hu b) rest α' acc') =
        (if Score.ble β (Score.smax α s) then Score.smax acc s
         else vMaxLoop nextV β (encB ai hu b) rest (Score.smax α s) (Score.smax acc s)) := by
      intro s; cases s <;> rfl
    rcases hres : nextF (setCell b r c ai) α β with ⟨g, bc⟩
    have hbc : bc = setCell b r c ai := by
      have := hnextB (setCell b r c ai) α β; rw [hres] at this; exact this
    have hundo : setCell bc r c ' ' = b := by
      rw [hbc]; exact setCell_setCell_cancel b r c ai hr hc hcell
    have hg : nextV (setd (encB ai hu b) (3 * r + c) 1) α β = g := by
      rw [hnx r c (List.mem_cons_self _ _) α β, hres]
    rw [hg, harm g]
    dsimp only
    rw [hundo]
    simp only [Score.smax_eq_max, Score.ble_eq_decide, decide_eq_true_eq]
    split_ifs with hcond
    · rfl
    · exact ih b hrest hnxrest (max α g) (max acc g)

theorem vMinLoop_eq_abMinLoop (ai hu : Cell)
    (nextF : Board → Score → Score → Score × Board)
    (nextV : Nat → Score → Score → Score) (α : Score)
    (hnextB : ∀ b' α' β', (nextF b' α' β').2 = b') :
    ∀ (l : List (Nat × Nat)) (b : Board),
      (∀ m ∈ l, m.1 < 3 ∧ m.2 < 3 ∧ getCell b m.1 m.2 = ' ') →
      (∀ r c, (r, c) ∈ l → ∀ α' β',
        nextV (setd (encB ai hu b) (3 * r + c) 2) α' β' = (nextF (setCell b r c hu) α' β').1) →
      ∀ β acc, vMinLoop nextV α (encB ai hu b) l β acc = (abMinLoop nextF hu α l b β acc).1 := by
  intro l
  induction l with
  | nil => intro b _ _ β acc; rfl
  | cons m rest ih =>
    rcases m with ⟨r, c⟩
    intro b hmv hnx β acc
    obtain ⟨hr, hc, hcell⟩ := hmv (r, c) (List.mem_cons_self _ _)
    have hrest := fun m hm => hmv m (List.mem_cons_of_mem _ hm)
    have hnxrest := fun r' c' hm => hnx r' c' (List.mem_cons_of_mem _ hm)
    rw [abMinLoop, vMinLoop_cons]
    dsimp only
    have harm : ∀ s : Score,
        (match s with
         | Score.negInf =>
           let acc' := Score.smin acc Score.negInf
           let β' := Score.smin β Score.negInf
           if Score.ble β' α then acc' else vMinLoop nextV α (encB ai hu b) rest β' acc'
         | Score.num n =>
           let acc' := Score.smin acc (Score.num n)
           let β' := Score.smin β (Score.num n)
           if Score.ble β' α then acc' else vMinLoop nextV α (encB ai hu b) rest β' acc'
         | Score.posInf =>
           let acc' := Score.smin acc Score.posInf
           let β' := Score.smin β Score.posInf
           if Score.ble β' α then acc' else vMinLoop nextV α (encB ai hu b) rest β' acc') =
        (if Score.ble (Score.smin β s) α then Score.smin acc s
         else vMinLoop nextV α (encB ai hu b) rest (Score.smin β s) (Score.smin acc s)) := by
      intro s; cases s <;> rfl
    rcases hres : nextF (setCell b r c hu) α β with ⟨g, bc⟩
    have hbc : bc = setCell b r c hu := by
      have := hnextB (setCell b r c hu) α β; rw [hres] at this; exact this
    have hundo : setCell bc r c ' ' = b := by
      rw [hbc]; exact setCell_setCell_cancel b r c hu hr hc hcell
    have hg : nextV (setd (encB ai hu b) (3 * r + c) 2) α β = g := by
      rw [hnx r c (List.mem_cons_self _ _) α β, hres]
    rw [hg, harm g]
    dsimp only
    rw [hundo]
    simp only [Score.smin_eq_min, Score.ble_eq_decide, decide_eq_true_eq]
    split_ifs with hcond
    · rfl
    · exact ih b hrest hnxrest (min β g) (min acc g)

theorem minimaxV_eq_minimaxF (ai hu : Cell) (hne : ai ≠ hu) (hai : ai ≠ ' ') (hhu : hu ≠ ' ') :
    ∀ (fuel : Nat) (b : Board), boardUses ai hu b = true →
      ∀ (depth : Nat) (maximizing : Bool) (α β : Score),
        minimaxV fuel (encB ai hu b) depth maximizing α β
          = (minimaxF ai hu fuel b depth maximizing α β).1 := by
  intro fuel
  induction fuel with
  | zero => intro b _ _ _ _ _; rfl
  | succ f ih =>
    intro b hb depth maximizing α β
    rw [minimaxF, minimaxV_succ, winnerN_encB ai hu hne hai hhu b hb]
    rcases hcw : check_winner b with _ | w
    · have hgo : (is_game_over b).1 = is_board_full b := by
        rw [is_game_over, hcw]
        cases hfull : is_board_full b <;> simp [hfull]
      rw [fullN_encB ai hu hne hai hhu b hb]
      dsimp only
      rw [hgo]
      by_cases hfull : is_board_full b = true
      · rw [if_pos hfull, if_pos hfull]
        have : terminalScore ai hu b depth = Score.num 0 := by
          simp [terminalScore, evaluate_board, hcw]
        rw [this]
      · rw [if_neg hfull, if_neg hfull]
        cases maximizing
        · rw [if_neg (by simp), if_neg (by simp)]
          rw [availN_encB ai hu hne hai hhu b hb]
          exact vMinLoop_eq_abMinLoop ai hu _ _ α
            (fun b' α' β' => minimaxF_board ai hu f b' (depth + 1) true α' β')
            (get_available_moves b) b
            (fun m hm => (mem_avail b m).mp hm)
            (fun r c hm α' β' => by
              obtain ⟨hr, hc, hcell⟩ := (mem_avail b (r, c)).mp hm
              have hsd := setd_encB ai hu b hu r c hr hc
              rw [cellCode_hu ai hu hne] at hsd
              rw [hsd]
              exact ih (setCell b r c hu)
                (boardUses_setCell ai hu b hb hu (Or.inr (Or.inr rfl)) r c)
                (depth + 1) true α' β')
            β Score.posInf
        · rw [if_pos (by trivial), if_pos (by trivial)]
          rw [availN_encB ai hu hne hai hhu b hb]
          exact vMaxLoop_eq_abMaxLoop ai hu _ _ β
            (fun b' α' β' => minimaxF_board ai hu f b' (depth + 1) false α' β')
            (get_available_moves b) b
            (fun m hm => (mem_avail b m).mp hm)
            (fun r c hm α' β' => by
              obtain ⟨hr, hc, hcell⟩ := (mem_avail b (r, c)).mp hm
              have hsd := setd_encB ai hu b ai r c hr hc
              rw [cellCode_ai ai hu] at hsd
              rw [hsd]
              exact ih (setCell b r c ai)
                (boardUses_setCell ai hu b hb ai (Or.inr (Or.inl rfl)) r c)
                (depth + 1) false α' β')
            α Score.negInf
    · have hgo : (is_game_over b).1 = true := by rw [is_game_over, hcw]
      rw [hgo, if_pos rfl]
      dsimp only
      rcases check_winner_mem ai hu b hb w hcw with hw | hw
      · rw [hw, cellCode_ai ai hu]
        have : terminalScore ai hu b depth = Score.num (10 - (depth : ℤ)) := by
          simp [terminalScore, evaluate_board, hcw, hw]
        rw [this]
        rfl
      · rw [hw, cellCode_hu ai hu hne]
        have : terminalScore ai hu b depth = Score.num (-10 + (depth : ℤ)) := by
          simp [terminalScore, evaluate_board, hcw, hw, Ne.symm hne]
        rw [this]
        rfl

theorem Score.negInf_lt_posInf : Score.negInf < Score.posInf :=
  lt_of_le_not_le (Score.negInf_le _) (fun h => h)

theorem Score.num_lt_posInf (n : ℤ) : Score.num n < Score.posInf :=
  lt_of_le_not_le (Score.le_posInf _) (fun h => h)

theorem bmLoopSharedV_cons (b : Nat) (rc : Nat × Nat) (l : List (Nat × Nat))
    (bs : Score) (bm : Option (Nat × Nat)) :
    bmLoopSharedV b (rc :: l) bs bm =
      (match minimaxV 9 (setd b (3 * rc.1 + rc.2) 1) 0 false bs .posInf with
       | Score.negInf =>
         if Score.blt bs Score.negInf then bmLoopSharedV b l Score.negInf (some rc)
         else bmLoopSharedV b l bs bm
       | Score.num n =>
         if Score.blt bs (Score.num n) then bmLoopSharedV b l (Score.num n) (some rc)
         else bmLoopSharedV b l bs bm
       | Score.posInf =>
         if Score.blt bs Score.posInf then bmLoopSharedV b l Score.posInf (some rc)
         else bmLoopSharedV b l bs bm) := rfl

theorem bmLoopSharedV_eq (ai hu : Cell) (hne : ai ≠ hu) (hai : ai ≠ ' ') (hhu : hu ≠ ' ') :
    ∀ (l : List (Nat × Nat)) (b : Board), boardUses ai hu b = true →
      (∀ m ∈ l, m.1 < 3 ∧ m.2 < 3 ∧ getCell b m.1 m.2 = ' ') →
      ∀ (bs : Score) (bm : Option (Nat × Nat)),
        (bs = Score.negInf ∨ ∃ n, bs = Score.num n) →
        bmLoopSharedV (encB ai hu b) l bs bm = (bmLoop ai hu l b bs bm).1 := by
  intro l
  induction l with
  | nil => intro b _ _ bs bm _; rfl
  | cons m rest ih =>
    rcases m with ⟨r, c⟩
    intro b hb hmv bs bm hbs
    obtain ⟨hr, hc, hcell⟩ := hmv (r, c) (List.mem_cons_self _ _)
    have hrest := fun m hm => hmv m (List.mem_cons_of_mem _ hm)
    rw [bmLoop, bmLoopSharedV_cons]
    dsimp only
    have harm : ∀ s : Score,
        (match s with
         | Score.negInf =>
           if Score.blt bs Score.negInf then bmLoopSharedV (encB ai hu b) rest Score.negInf (some (r, c))
           else bmLoopSharedV (encB ai hu b) rest bs bm
         | Score.num n =>
           if Score.blt bs (Score.num n) then bmLoopSharedV (encB ai hu b) rest (Score.num n) (some (r, c))
           else bmLoopSharedV (encB ai hu b) rest bs bm
         | Score.posInf =>
           if Score.blt bs Score.posInf then bmLoopSharedV (encB ai hu b) rest Score.posInf (some (r, c))
           else bmLoopSharedV (encB ai hu b) rest bs bm) =
        (if Score.blt bs s then bmLoopSharedV (encB ai hu b) rest s (some (r, c))
         else bmLoopSharedV (encB ai hu b) rest bs bm) := by
      intro s; cases s <;> rfl
    have hsd := setd_encB ai hu b ai r c hr hc
    rw [cellCode_ai ai hu] at hsd
    have hgV : minimaxV 9 (setd (encB ai hu b) (3 * r + c) 1) 0 false bs Score.posInf
        = (minimaxF ai hu 9 (setCell b r c ai) 0 false bs Score.posInf).1 := by
      rw [hsd]
      exact minimaxV_eq_minimaxF ai hu hne hai hhu 9 (setCell b r c ai)
        (boardUses_setCell ai hu b hb ai (Or.inr (Or.inl rfl)) r c) 0 false bs Score.posInf
    rw [hgV, harm]
    rcases hres : minimax ai hu (setCell b r c ai) 0 false .negInf .posInf with ⟨v, bc⟩
    have hbc : bc = setCell b r c ai := by
      have := minimax_board ai hu (setCell b r c ai) 0 false .negInf .posInf
      rw [hres] at this; exact this
    have hundo : setCell bc r c ' ' = b := by
      rw [hbc]; exact setCell_setCell_cancel b r c ai hr hc hcell
    have hvP : v = plainF ai hu 9 (setCell b r c ai) 0 false := by
      have := minimax_rootEq ai hu (setCell b r c ai) 0 false
      rw [hres] at this; exact this
    obtain ⟨ng, hng⟩ := minimaxF_isNum ai hu 9 (setCell b r c ai) 0 false bs Score.posInf
    obtain ⟨nv, hnv⟩ := minimaxF_isNum ai hu 9 (setCell b r c ai) 0 false Score.negInf Score.posInf
    have hnv' : v = Score.num nv := by
      rw [minimax] at hres
      rw [hres] at hnv
      exact hnv
    have hlt : bs < Score.posInf := by
      rcases hbs with rfl | ⟨n, rfl⟩
      · exact Score.negInf_lt_posInf
      · exact Score.num_lt_posInf n
    have hKM := minimaxF_km ai hu 9 (setCell b r c ai) 0 false bs Score.posInf hlt
    dsimp only
    rw [hundo]
    by_cases hbsg : bs < (minimaxF ai hu 9 (setCell b r c ai) 0 false bs Score.posInf).1
    · have hgltP : (minimaxF ai hu 9 (setCell b r c ai) 0 false bs Score.posInf).1
          < Score.posInf := by
        rw [hng]; exact Score.num_lt_posInf ng
      have hPg : plainF ai hu 9 (setCell b r c ai) 0 false
          = (minimaxF ai hu 9 (setCell b r c ai) 0 false bs Score.posInf).1 :=
        hKM.2.1 hbsg hgltP
      have hvg : v = (minimaxF ai hu 9 (setCell b r c ai) 0 false bs Score.posInf).1 := by
        rw [hvP, hPg]
      rw [if_pos (by rw [Score.blt_eq_decide]; exact decide_eq_true hbsg),
          if_pos (by rw [← hvg] at hbsg; exact hbsg)]
      rw [← hvg]
      exact ih b hb hrest v (some (r, c)) (Or.inr ⟨nv, hnv'⟩)
    · have hgle : (minimaxF ai hu 9 (setCell b r c ai) 0 false bs Score.posInf).1 ≤ bs :=
        not_lt.mp hbsg
      have hPle := hKM.1 hgle
      have hvle : v ≤ bs := le_trans (le_trans (le_of_eq hvP) hPle) hgle
      rw [if_neg (by rw [Score.blt_eq_decide]; simp only [decide_eq_true_eq]; exact hbsg),
          if_neg (not_lt.mpr hvle)]
      exact ih b hb hrest bs bm hbs

theorem bestMoveSharedV_eq (ai hu : Cell) (hne : ai ≠ hu) (hai : ai ≠ ' ') (hhu : hu ≠ ' ')
    (b : Board) (hb : boardUses ai hu b = true) :
    bestMoveSharedV (encB ai hu b) = (get_best_move ai hu b).1 := by
  rw [bestMoveSharedV, get_best_move, availN_encB ai hu hne hai hhu b hb]
  exact bmLoopSharedV_eq ai hu hne hai hhu (get_available_moves b) b hb
    (fun m hm => (mem_avail b m).mp hm) .negInf none (Or.inl rfl)

theorem rootV00 : minimaxV 9 (setd 0 0 1) 0 false Score.negInf Score.posInf = Score.num 0 := by decide!

theorem rootV01 : minimaxV 9 (setd 0 1 1) 0 false (Score.num 0) Score.posInf = Score.num 0 := by decide!

theorem rootV02 : minimaxV 9 (setd 0 2 1) 0 false (Score.num 0) Score.posInf = Score.num 0 := by decide!

theorem rootV10 : minimaxV 9 (setd 0 3 1) 0 false (Score.num 0) Score.posInf = Score.num 0 := by decide!

theorem rootV11 : minimaxV 9 (setd 0 4 1) 0 false (Score.num 0) Score.posInf = Score.num 0 := by decide!

theorem rootV12 : minimaxV 9 (setd 0 5 1) 0 false (Score.num 0) Score.posInf = Score.num 0 := by decide!

theorem rootV20 : minimaxV 9 (setd 0 6 1) 0 false (Score.num 0) Score.posInf = Score.num 0 := by decide!

theorem rootV21 : minimaxV 9 (setd 0 7 1) 0 false (Score.num 0) Score.posInf = Score.num 0 := by decide!

theorem rootV22 : minimaxV 9 (setd 0 8 1) 0 false (Score.num 0) Score.posInf = Score.num 0 := by decide!

theorem stepV2 : bestMoveSharedV 2 = some (1, 1) := by decide!

theorem stepV513 : bestMoveSharedV 513 = some (0, 1) := by decide!

theorem stepV266 : bestMoveSharedV 266 = some (0, 2) := by decide!

theorem stepV549 : bestMoveSharedV 549 = some (2, 0) := by decide!

theorem stepV8474 : bestMoveSharedV 8474 = some (1, 0) := by decide!

theorem stepV4773 : bestMoveSharedV 4773 = some (1, 2) := by decide!

theorem stepV10586 : bestMoveSharedV 10586 = some (2, 1) := by decide!

theorem stepV38565 : bestMoveSharedV 38565 = some (2, 2) := by decide!

theorem bmLoopSharedV_cons_eval (b : Nat) (rc : Nat × Nat) (l : List (Nat × Nat))
    (bs : Score) (bm : Option (Nat × Nat)) (n : ℤ)
    (h : minimaxV 9 (setd b (3 * rc.1 + rc.2) 1) 0 false bs .posInf = Score.num n) :
    bmLoopSharedV b (rc :: l) bs bm =
      (if Score.blt bs (Score.num n) then bmLoopSharedV b l (Score.num n) (some rc)
       else bmLoopSharedV b l bs bm) := by
  rw [bmLoopSharedV_cons, h]

theorem bestMoveSharedV_zero : bestMoveSharedV 0 = some (0, 0) := by
  rw [bestMoveSharedV]
  rw [show availN 0 = [(0, 0), (0, 1), (0, 2), (1, 0), (1, 1), (1, 2), (2, 0), (2, 1), (2, 2)]
    from by decide]
  rw [bmLoopSharedV_cons_eval 0 (0, 0) _ Score.negInf none 0 rootV00, if_pos (by decide)]
  rw [bmLoopSharedV_cons_eval 0 (0, 1) _ (Score.num 0) (some (0, 0)) 0 rootV01,
      if_neg (by decide)]
  rw [bmLoopSharedV_cons_eval 0 (0, 2) _ (Score.num 0) (some (0, 0)) 0 rootV02,
      if_neg (by decide)]
  rw [bmLoopSharedV_cons_eval 0 (1, 0) _ (Score.num 0) (some (0, 0)) 0 rootV10,
      if_neg (by decide)]
  rw [bmLoopSharedV_cons_eval 0 (1, 1) _ (Score.num 0) (some (0, 0)) 0 rootV11,
      if_neg (by decide)]
  rw [bmLoopSharedV_cons_eval 0 (1, 2) _ (Score.num 0) (some (0, 0)) 0 rootV12,
      if_neg (by decide)]
  rw [bmLoopSharedV_cons_eval 0 (2, 0) _ (Score.num 0) (some (0, 0)) 0 rootV20,
      if_neg (by decide)]
  rw [bmLoopSharedV_cons_eval 0 (2, 1) _ (Score.num 0) (some (0, 0)) 0 rootV21,
      if_neg (by decide)]
  rw [bmLoopSharedV_cons_eval 0 (2, 2) _ (Score.num 0) (some (0, 0)) 0 rootV22,
      if_neg (by decide)]
  rfl

theorem selfPlay_step (f : Nat) (b : Board) (t : Cell) (r c : Nat)
    (hgo : (is_game_over b).1 = false)
    (hbm : (get_best_move t (otherMark t) b).1 = some (r, c)) :
    selfPlay (f + 1) b t = selfPlay f (make_move b (r : ℤ) (c : ℤ) t).2 (otherMark t) := by
  rw [selfPlay, if_neg (by simp [hgo]), hbm]

/-- C3: on the empty board the code's `get_best_move` returns the corner
`(0, 0)`, not the center `(1, 1)` that the spec, the claim, and the repo's
own unit test `test_ai_center_preference` (test_agent.py) expect: every
opening scores 0 under optimal play and the loop replaces the incumbent
only on strict improvement, so the first row-major candidate is kept.
(Computed through the verified packed-board mirror of the search:
`bestMoveSharedV_eq` + `bestMoveSharedV_zero`.) -/
theorem C3_empty_board_best_move_is_corner :
    (get_best_move 'O' 'X' emptyBoard).1 = some (0, 0) := by
  have h := bestMoveSharedV_eq 'O' 'X' (by decide) (by decide) (by decide) emptyBoard (by decide)
  rw [show encB 'O' 'X' emptyBoard = 0 from by decide] at h
  rw [← h]
  exact bestMoveSharedV_zero

/-- C6: two `MinimaxAI` agents (one maximizing for `'X'`, one for `'O'`)
alternating `get_best_move` moves from the empty board reach a terminal
board and `is_game_over` reports it as a draw (`(True, 'Draw')` in the
Python source, modelled `(true, none)`): neither side forces a win under
optimal play.  The nine moves played are X(0,0), O(1,1), X(0,1), O(0,2),
X(2,0), O(1,0), X(1,2), O(2,1), X(2,2). -/
theorem C6_self_play_draw :
    is_game_over (selfPlay 10 emptyBoard 'X') = (true, none) := by
  have s1 : (get_best_move 'X' 'O' emptyBoard).1 = some (0, 0) := by
    have h := bestMoveSharedV_eq 'X' 'O' (by decide) (by decide) (by decide) emptyBoard (by decide)
    rw [show encB 'X' 'O' emptyBoard = 0 from by decide] at h
    rw [← h]
    exact bestMoveSharedV_zero
  have s2 : (get_best_move 'O' 'X' ⟨'X', ' ', ' ', ' ', ' ', ' ', ' ', ' ', ' '⟩).1
      = some (1, 1) := by
    have h := bestMoveSharedV_eq 'O' 'X' (by decide) (by decide) (by decide)
      ⟨'X', ' ', ' ', ' ', ' ', ' ', ' ', ' ', ' '⟩ (by decide)
    rw [show encB 'O' 'X' ⟨'X', ' ', ' ', ' ', ' ', ' ', ' ', ' ', ' '⟩ = 2 from by decide] at h
    rw [← h]
    exact stepV2
  have s3 : (get_best_move 'X' 'O' ⟨'X', ' ', ' ', ' ', 'O', ' ', ' ', ' ', ' '⟩).1
      = some (0, 1) := by
    have h := bestMoveSharedV_eq 'X' 'O' (by decide) (by decide) (by decide)
      ⟨'X', ' ', ' ', ' ', 'O', ' ', ' ', ' ', ' '⟩ (by decide)
    rw [show encB 'X' 'O' ⟨'X', ' ', ' ', ' ', 'O', ' ', ' ', ' ', ' '⟩ = 513 from by decide] at h
    rw [← h]
    exact stepV513
  have s4 : (get_best_move 'O' 'X' ⟨'X', 'X', ' ', ' ', 'O', ' ', ' ', ' ', ' '⟩).1
      = some (0, 2) := by
    have h := bestMoveSharedV_eq 'O' 'X' (by decide) (by decide) (by decide)
      ⟨'X', 'X', ' ', ' ', 'O', ' ', ' ', ' ', ' '⟩ (by decide)
    rw [show encB 'O' 'X' ⟨'X', 'X', ' ', ' ', 'O', ' ', ' ', ' ', ' '⟩ = 266 from by decide] at h
    rw [← h]
    exact stepV266
  have s5 : (get_best_move 'X' 'O' ⟨'X', 'X', 'O', ' ', 'O', ' ', ' ', ' ', ' '⟩).1
      = some (2, 0) := by
    have h := bestMoveSharedV_eq 'X' 'O' (by decide) (by decide) (by decide)
      ⟨'X', 'X', 'O', ' ', 'O', ' ', ' ', ' ', ' '⟩ (by decide)
    rw [show encB 'X' 'O' ⟨'X', 'X', 'O', ' ', 'O', ' ', ' ', ' ', ' '⟩ = 549 from by decide] at h
    rw [← h]
    exact stepV549
  have s6 : (get_best_move 'O' 'X' ⟨'X', 'X', 'O', ' ', 'O', ' ', 'X', ' ', ' '⟩).1
      = some (1, 0) := by
    have h := bestMoveSharedV_eq 'O' 'X' (by decide) (by decide) (by decide)
      ⟨'X', 'X', 'O', ' ', 'O', ' ', 'X', ' ', ' '⟩ (by decide)
    rw [show encB 'O' 'X' ⟨'X', 'X', 'O', ' ', 'O', ' ', 'X', ' ', ' '⟩ = 8474 from by decide] at h
    rw [← h]
    exact stepV8474
  have s7 : (get_best_move 'X' 'O' ⟨'X', 'X', 'O', 'O', 'O', ' ', 'X', ' ', ' '⟩).1
      = some (1, 2) := by
    have h := bestMoveSharedV_eq 'X' 'O' (by decide) (by decide) (by decide)
      ⟨'X', 'X', 'O', 'O', 'O', ' ', 'X', ' ', ' '⟩ (by decide)
    rw [show encB 'X' 'O' ⟨'X', 'X', 'O', 'O', 'O', ' ', 'X', ' ', ' '⟩ = 4773 from by decide] at h
    rw [← h]
    exact stepV4773
  have s8 : (get_best_move 'O' 'X' ⟨'X', 'X', 'O', 'O', 'O', 'X', 'X', ' ', ' '⟩).1
      = some (2, 1) := by
    have h := bestMoveSharedV_eq 'O' 'X' (by decide) (by decide) (by decide)
      ⟨'X', 'X', 'O', 'O', 'O', 'X', 'X', ' ', ' '⟩ (by decide)
    rw [show encB 'O' 'X' ⟨'X', 'X', 'O', 'O', 'O', 'X', 'X', ' ', ' '⟩ = 10586 from by decide] at h
    rw [← h]
    exact stepV10586
  have s9 : (get_best_move 'X' 'O' ⟨'X', 'X', 'O', 'O', 'O', 'X', 'X', 'O', ' '⟩).1
      = some (2, 2) := by
    have h := bestMoveSharedV_eq 'X' 'O' (by decide) (by decide) (by decide)
      ⟨'X', 'X', 'O', 'O', 'O', 'X', 'X', 'O', ' '⟩ (by decide)
    rw [show encB 'X' 'O' ⟨'X', 'X', 'O', 'O', 'O', 'X', 'X', 'O', ' '⟩ = 38565 from by decide] at h
    rw [← h]
    exact stepV38565
  have u1 : selfPlay 10 emptyBoard 'X'
      = selfPlay 9 ⟨'X', ' ', ' ', ' ', ' ', ' ', ' ', ' ', ' '⟩ 'O' := by
    rw [show (10 : Nat) = 9 + 1 from rfl,
        selfPlay_step 9 emptyBoard 'X' 0 0 (by decide) s1,
        show (make_move emptyBoard ((0 : Nat) : ℤ) ((0 : Nat) : ℤ) 'X').2
          = (⟨'X', ' ', ' ', ' ', ' ', ' ', ' ', ' ', ' '⟩ : Board) from by decide]
    rfl
  have u2 : selfPlay 9 ⟨'X', ' ', ' ', ' ', ' ', ' ', ' ', ' ', ' '⟩ 'O'
      = selfPlay 8 ⟨'X', ' ', ' ', ' ', 'O', ' ', ' ', ' ', ' '⟩ 'X' := by
    rw [show (9 : Nat) = 8 + 1 from rfl,
        selfPlay_step 8 ⟨'X', ' ', ' ', ' ', ' ', ' ', ' ', ' ', ' '⟩ 'O' 1 1 (by decide) s2,
        show (make_move ⟨'X', ' ', ' ', ' ', ' ', ' ', ' ', ' ', ' '⟩ ((1 : Nat) : ℤ) ((1 : Nat) : ℤ) 'O').2
          = (⟨'X', ' ', ' ', ' ', 'O', ' ', ' ', ' ', ' '⟩ : Board) from by decide]
    rfl
  have u3 : selfPlay 8 ⟨'X', ' ', ' ', ' ', 'O', ' ', ' ', ' ', ' '⟩ 'X'
      = selfPlay 7 ⟨'X', 'X', ' ', ' ', 'O', ' ', ' ', ' ', ' '⟩ 'O' := by
    rw [show (8 : Nat) = 7 + 1 from rfl,
        selfPlay_step 7 ⟨'X', ' ', ' ', ' ', 'O', ' ', ' ', ' ', ' '⟩ 'X' 0 1 (by decide) s3,
        show (make_move ⟨'X', ' ', ' ', ' ', 'O', ' ', ' ', ' ', ' '⟩ ((0 : Nat) : ℤ) ((1 : Nat) : ℤ) 'X').2
          = (⟨'X', 'X', ' ', ' ', 'O', ' ', ' ', ' ', ' '⟩ : Board) from by decide]
    rfl
  have u4 : selfPlay 7 ⟨'X', 'X', ' ', ' ', 'O', ' ', ' ', ' ', ' '⟩ 'O'
      = selfPlay 6 ⟨'X', 'X', 'O', ' ', 'O', ' ', ' ', ' ', ' '⟩ 'X' := by
    rw [show (7 : Nat) = 6 + 1 from rfl,
        selfPlay_step 6 ⟨'X', 'X', ' ', ' ', 'O', ' ', ' ', ' ', ' '⟩ 'O' 0 2 (by decide) s4,
        show (make_move ⟨'X', 'X', ' ', ' ', 'O', ' ', ' ', ' ', ' '⟩ ((0 : Nat) : ℤ) ((2 : Nat) : ℤ) 'O').2
          = (⟨'X', 'X', 'O', ' ', 'O', ' ', ' ', ' ', ' '⟩ : Board) from by decide]
    rfl
  have u5 : selfPlay 6 ⟨'X', 'X', 'O', ' ', 'O', ' ', ' ', ' ', ' '⟩ 'X'
      = selfPlay 5 ⟨'X', 'X', 'O', ' ', 'O', ' ', 'X', ' ', ' '⟩ 'O' := by
    rw [show (6 : Nat) = 5 + 1 from rfl,
        selfPlay_step 5 ⟨'X', 'X', 'O', ' ', 'O', ' ', ' ', ' ', ' '⟩ 'X' 2 0 (by decide) s5,
        show (make_move ⟨'X', 'X', 'O', ' ', 'O', ' ', ' ', ' ', ' '⟩ ((2 : Nat) : ℤ) ((0 : Nat) : ℤ) 'X').2
          = (⟨'X', 'X', 'O', ' ', 'O', ' ', 'X', ' ', ' '⟩ : Board) from by decide]
    rfl
  have u6 : selfPlay 5 ⟨'X', 'X', 'O', ' ', 'O', ' ', 'X', ' ', ' '⟩ 'O'
      = selfPlay 4 ⟨'X', 'X', 'O', 'O', 'O', ' ', 'X', ' ', ' '⟩ 'X' := by
    rw [show (5 : Nat) = 4 + 1 from rfl,
        selfPlay_step 4 ⟨'X', 'X', 'O', ' ', 'O', ' ', 'X', ' ', ' '⟩ 'O' 1 0 (by decide) s6,
        show (make_move ⟨'X', 'X', 'O', ' ', 'O', ' ', 'X', ' ', ' '⟩ ((1 : Nat) : ℤ) ((0 : Nat) : ℤ) 'O').2
          = (⟨'X', 'X', 'O', 'O', 'O', ' ', 'X', ' ', ' '⟩ : Board) from by decide]
    rfl
  have u7 : selfPlay 4 ⟨'X', 'X', 'O', 'O', 'O', ' ', 'X', ' ', ' '⟩ 'X'
      = selfPlay 3 ⟨'X', 'X', 'O', 'O', 'O', 'X', 'X', ' ', ' '⟩ 'O' := by
    rw [show (4 : Nat) = 3 + 1 from rfl,
        selfPlay_step 3 ⟨'X', 'X', 'O', 'O', 'O', ' ', 'X', ' ', ' '⟩ 'X' 1 2 (by decide) s7,
        show (make_move ⟨'X', 'X', 'O', 'O', 'O', ' ', 'X', ' ', ' '⟩ ((1 : Nat) : ℤ) ((2 : Nat) : ℤ) 'X').2
          = (⟨'X', 'X', 'O', 'O', 'O', 'X', 'X', ' ', ' '⟩ : Board) from by decide]
    rfl
  have u8 : selfPlay 3 ⟨'X', 'X', 'O', 'O', 'O', 'X', 'X', ' ', ' '⟩ 'O'
      = selfPlay 2 ⟨'X', 'X', 'O', 'O', 'O', 'X', 'X', 'O', ' '⟩ 'X' := by
    rw [show (3 : Nat) = 2 + 1 from rfl,
        selfPlay_step 2 ⟨'X', 'X', 'O', 'O', 'O', 'X', 'X', ' ', ' '⟩ 'O' 2 1 (by decide) s8,
        show (make_move ⟨'X', 'X', 'O', 'O', 'O', 'X', 'X', ' ', ' '⟩ ((2 : Nat) : ℤ) ((1 : Nat) : ℤ) 'O').2
          = (⟨'X', 'X', 'O', 'O', 'O', 'X', 'X', 'O', ' '⟩ : Board) from by decide]
    rfl
  have u9 : selfPlay 2 ⟨'X', 'X', 'O', 'O', 'O', 'X', 'X', 'O', ' '⟩ 'X'
      = selfPlay 1 ⟨'X', 'X', 'O', 'O', 'O', 'X', 'X', 'O', 'X'⟩ 'O' := by
    rw [show (2 : Nat) = 1 + 1 from rfl,
        selfPlay_step 1 ⟨'X', 'X', 'O', 'O', 'O', 'X', 'X', 'O', ' '⟩ 'X' 2 2 (by decide) s9,
        show (make_move ⟨'X', 'X', 'O', 'O', 'O', 'X', 'X', 'O', ' '⟩ ((2 : Nat) : ℤ) ((2 : Nat) : ℤ) 'X').2
          = (⟨'X', 'X', 'O', 'O', 'O', 'X', 'X', 'O', 'X'⟩ : Board) from by decide]
    rfl
  have u10 : selfPlay 1 ⟨'X', 'X', 'O', 'O', 'O', 'X', 'X', 'O', 'X'⟩ 'O'
      = ⟨'X', 'X', 'O', 'O', 'O', 'X', 'X', 'O', 'X'⟩ := by
    rw [show (1 : Nat) = 0 + 1 from rfl, selfPlay, if_pos (by decide)]
  rw [u1, u2, u3, u4, u5, u6, u7, u8, u9, u10]
  decide
